import Mathlib

/-!
# thesurgeon: the request handler of `src/app/server.js`

A shallow embedding of the HTTP server of `src/app/server.js` and of the
platform operations it calls, followed by the theorems that settle the claims
made about it.

* The handler, `VERSION`, `PHRASES` and `randomPhrase` are translated from
  `src/app/server.js`.
* `new URL(url, base)` is the basic URL parser of the WHATWG URL Standard, which
  Node.js implements: one function per state of its state machine. Unicode
  ToASCII on domains that are not plain ASCII needs the Unicode tables and is a
  parameter, `toASCII`; the theorems hold for every value of it.
* `JSON.stringify` on the two payloads is QuoteJSONString and
  SerializeJSONObject of ECMA-262.
* `Math.random()` is a source of rationals (every double is one); that its values
  lie in `[0, 1)` is a hypothesis where a theorem needs it.
* `process.env` is a function from names to optional strings.

JavaScript strings that reach the modelled operations are sequences of Unicode
scalar values (`new URL` takes `USVString` arguments), so they are modelled as
`String` at the interface and as `List Char` inside the URL parser.
-/

namespace Surgeon

/-! ## Code points -/

/-- Text inside the URL parser: a list of Unicode scalar values. -/
abbrev Str := List Char

/-- A C0 control or space: U+0000 to U+0020. -/
def isC0ControlOrSpace (c : Char) : Bool := decide (c.toNat ≤ 0x20)

/-- An ASCII tab or newline: U+0009, U+000A, U+000D. -/
def isTabOrNewline (c : Char) : Bool :=
  decide (c.toNat = 0x09) || decide (c.toNat = 0x0A) || decide (c.toNat = 0x0D)

def isAsciiDigit (c : Char) : Bool := decide (0x30 ≤ c.toNat) && decide (c.toNat ≤ 0x39)

def isAsciiUpperAlpha (c : Char) : Bool := decide (0x41 ≤ c.toNat) && decide (c.toNat ≤ 0x5A)

def isAsciiLowerAlpha (c : Char) : Bool := decide (0x61 ≤ c.toNat) && decide (c.toNat ≤ 0x7A)

def isAsciiAlpha (c : Char) : Bool := isAsciiUpperAlpha c || isAsciiLowerAlpha c

def isAsciiAlphanumeric (c : Char) : Bool := isAsciiDigit c || isAsciiAlpha c

def isAsciiHexDigit (c : Char) : Bool :=
  isAsciiDigit c || (decide (0x41 ≤ c.toNat) && decide (c.toNat ≤ 0x46))
    || (decide (0x61 ≤ c.toNat) && decide (c.toNat ≤ 0x66))

/-- ASCII lowercase of one code point. -/
def asciiLower (c : Char) : Char :=
  if isAsciiUpperAlpha c then Char.ofNat (c.toNat + 0x20) else c

/-- Value of an ASCII hex digit (0 for any other code point). -/
def hexValue (c : Char) : Nat :=
  if isAsciiDigit c then c.toNat - 0x30
  else if decide (0x41 ≤ c.toNat) && decide (c.toNat ≤ 0x46) then c.toNat - 0x41 + 10
  else if decide (0x61 ≤ c.toNat) && decide (c.toNat ≤ 0x66) then c.toNat - 0x61 + 10
  else 0

/-- Upper-case hex digit for a value below 16. -/
def hexDigitUpper (n : Nat) : Char :=
  if n < 10 then Char.ofNat (0x30 + n) else Char.ofNat (0x41 + (n - 10))

/-! ## Percent-encoding (URL Standard, section 1.3) -/

/-- UTF-8 encoding of one scalar value, as byte values. -/
def utf8Encode (c : Char) : List Nat :=
  let n := c.toNat
  if n < 0x80 then [n]
  else if n < 0x800 then [0xC0 + n / 0x40, 0x80 + n % 0x40]
  else if n < 0x10000 then [0xE0 + n / 0x1000, 0x80 + n / 0x40 % 0x40, 0x80 + n % 0x40]
  else [0xF0 + n / 0x40000, 0x80 + n / 0x1000 % 0x40, 0x80 + n / 0x40 % 0x40, 0x80 + n % 0x40]

/-- Percent-encode one byte: `%` and two upper-case hex digits. -/
def percentEncodeByte (b : Nat) : Str := ['%', hexDigitUpper (b / 16), hexDigitUpper (b % 16)]

/-- The C0 control percent-encode set: C0 controls and everything above U+007E. -/
def inC0ControlSet (c : Char) : Bool := decide (c.toNat ≤ 0x1F) || decide (0x7E < c.toNat)

/-- The fragment percent-encode set. -/
def inFragmentSet (c : Char) : Bool :=
  inC0ControlSet c || [0x20, 0x22, 0x3C, 0x3E, 0x60].contains c.toNat

/-- The query percent-encode set. -/
def inQuerySet (c : Char) : Bool :=
  inC0ControlSet c || [0x20, 0x22, 0x23, 0x3C, 0x3E].contains c.toNat

/-- The special-query percent-encode set. -/
def inSpecialQuerySet (c : Char) : Bool := inQuerySet c || decide (c.toNat = 0x27)

/-- The path percent-encode set. (Editions of the standard differ on U+005E; no
route contains it.) -/
def inPathSet (c : Char) : Bool :=
  inQuerySet c || [0x3F, 0x5E, 0x60, 0x7B, 0x7D].contains c.toNat

/-- The userinfo percent-encode set. -/
def inUserinfoSet (c : Char) : Bool :=
  inPathSet c || [0x2F, 0x3A, 0x3B, 0x3D, 0x40, 0x5B, 0x5C, 0x5D, 0x7C].contains c.toNat

/-- UTF-8 percent-encode a code point using a percent-encode set. -/
def utf8PercentEncode (inSet : Char → Bool) (c : Char) : Str :=
  if inSet c then (utf8Encode c).flatMap percentEncodeByte else [c]

/-- UTF-8 percent-encode a string using a percent-encode set. -/
def utf8PercentEncodeString (inSet : Char → Bool) (s : Str) : Str :=
  s.flatMap (utf8PercentEncode inSet)

/-- Is the byte an ASCII hex digit. -/
def isHexByte (b : Nat) : Bool :=
  (decide (0x30 ≤ b) && decide (b ≤ 0x39)) || (decide (0x41 ≤ b) && decide (b ≤ 0x46))
    || (decide (0x61 ≤ b) && decide (b ≤ 0x66))

/-- Value of a hex-digit byte. -/
def hexByteValue (b : Nat) : Nat :=
  if b ≤ 0x39 then b - 0x30 else if b ≤ 0x46 then b - 0x41 + 10 else b - 0x61 + 10

/-- Percent-decode a byte sequence; `skip` counts the bytes of an escape already
decoded that are still to be passed over. -/
def percentDecodeFrom : Nat → List Nat → List Nat
  | _, [] => []
  | skip + 1, _ :: rest => percentDecodeFrom skip rest
  | 0, b :: rest =>
    match rest with
    | h :: l :: _ =>
      if b = 0x25 ∧ isHexByte h ∧ isHexByte l then
        (hexByteValue h * 16 + hexByteValue l) :: percentDecodeFrom 2 rest
      else b :: percentDecodeFrom 0 rest
    | _ => b :: percentDecodeFrom 0 rest

/-- Percent-decode a byte sequence. -/
def percentDecode (bytes : List Nat) : List Nat := percentDecodeFrom 0 bytes

/-! ## Hosts (URL Standard, section 3) -/

/-- A host of a URL record. -/
inductive Host where
  | domain (name : Str)
  | ipv4 (address : Nat)
  | ipv6 (pieces : List Nat)
  | rawHost (text : Str)
  | empty
  deriving DecidableEq, Repr

/-- A forbidden host code point. -/
def isForbiddenHostCodePoint (c : Char) : Bool :=
  [0x00, 0x09, 0x0A, 0x0D, 0x20, 0x23, 0x2F, 0x3A, 0x3C, 0x3E, 0x3F, 0x40, 0x5B, 0x5C, 0x5D,
    0x5E, 0x7C].contains c.toNat

/-- A forbidden domain code point. -/
def isForbiddenDomainCodePoint (c : Char) : Bool :=
  isForbiddenHostCodePoint c || decide (c.toNat ≤ 0x1F) || decide (c.toNat = 0x25)
    || decide (c.toNat = 0x7F)

/-- Strictly split a string on a delimiter. -/
def strictSplit (d : Char) : Str → List Str
  | [] => [[]]
  | c :: cs =>
    if c = d then [] :: strictSplit d cs
    else
      match strictSplit d cs with
      | p :: ps => (c :: p) :: ps
      | [] => [[c]]

/-- Is the code point a digit in radix 8, 10 or 16. -/
def isRadixDigit (radix : Nat) (c : Char) : Bool :=
  if radix = 16 then isAsciiHexDigit c
  else if radix = 10 then isAsciiDigit c
  else decide (0x30 ≤ c.toNat) && decide (c.toNat ≤ 0x37)

/-- The number a digit string denotes in the given radix. -/
def digitsValue (radix : Nat) (s : Str) : Nat :=
  s.foldl (fun acc c => acc * radix + hexValue c) 0

/-- The IPv4 number parser; `none` is failure. -/
def parseIPv4Number (input : Str) : Option Nat :=
  if input = [] then none
  else
    let radixAndDigits : Nat × Str :=
      match input with
      | '0' :: 'x' :: rest => (16, rest)
      | '0' :: 'X' :: rest => (16, rest)
      | '0' :: c :: rest => (8, c :: rest)
      | _ => (10, input)
    if radixAndDigits.2 = [] then some 0
    else if radixAndDigits.2.all (isRadixDigit radixAndDigits.1) then
      some (digitsValue radixAndDigits.1 radixAndDigits.2)
    else none

/-- The ends-in-a-number checker. -/
def endsInANumber (input : Str) : Bool :=
  let parts := strictSplit '.' input
  let parts := if parts.getLast? = some [] then
    (if parts.length = 1 then none else some parts.dropLast) else some parts
  match parts with
  | none => false
  | some parts =>
    match parts.getLast? with
    | none => false
    | some last =>
      if last ≠ [] ∧ last.all isAsciiDigit then true
      else (parseIPv4Number last).isSome

/-- The IPv4 parser; `none` is failure. -/
def parseIPv4 (input : Str) : Option Nat :=
  let parts := strictSplit '.' input
  let parts := if parts.getLast? = some [] ∧ 1 < parts.length then parts.dropLast else parts
  if 4 < parts.length then none
  else
    match parts.mapM parseIPv4Number with
    | none => none
    | some numbers =>
      if numbers.dropLast.any (fun n => decide (255 < n)) then none
      else
        match numbers.getLast? with
        | none => none
        | some last =>
          if 256 ^ (5 - numbers.length) ≤ last then none
          else
            some (last + (numbers.dropLast.enum.map
              (fun p => p.2 * 256 ^ (3 - p.1))).sum)

/-- The dotted-decimal tail of an IPv6 address: the numbers read so far, the number
being read (if any), the rest of the input. Returns the four numbers. -/
def parseIPv4InIPv6 : List Nat → Option Nat → Str → Option (List Nat)
  | _, none, [] => none
  | nums, none, c :: cs =>
    if isAsciiDigit c then parseIPv4InIPv6 nums (some (c.toNat - 0x30)) cs else none
  | nums, some v, [] => if nums.length + 1 = 4 then some (nums ++ [v]) else none
  | nums, some v, c :: cs =>
    if isAsciiDigit c then
      if v = 0 then none
      else if 255 < v * 10 + (c.toNat - 0x30) then none
      else parseIPv4InIPv6 nums (some (v * 10 + (c.toNat - 0x30))) cs
    else if c = '.' ∧ nums.length + 1 < 4 then parseIPv4InIPv6 (nums ++ [v]) none cs
    else none

/-- Main loop of the IPv6 parser. `acc` holds the pieces written so far (its length
is the piece index), `compress` the compress pointer, `piece` the piece being read
as (input at its start, value, length); returns the pieces and the compress
pointer. -/
def parseIPv6Loop : List Nat → Option Nat → Option (Str × Nat × Nat) → Str →
    Option (List Nat × Option Nat)
  | acc, compress, none, [] => some (acc, compress)
  | acc, compress, none, c :: cs =>
    if acc.length = 8 then none
    else if c = ':' then
      if compress.isSome then none
      else parseIPv6Loop (acc ++ [0]) (some (acc.length + 1)) none cs
    else if isAsciiHexDigit c then parseIPv6Loop acc compress (some (c :: cs, hexValue c, 1)) cs
    else none
  | acc, compress, some (_, value, _), [] => some (acc ++ [value], compress)
  | acc, compress, some (start, value, length), c :: cs =>
    if length < 4 ∧ isAsciiHexDigit c then
      parseIPv6Loop acc compress (some (start, value * 0x10 + hexValue c, length + 1)) cs
    else if c = '.' then
      if 6 < acc.length then none
      else
        match parseIPv4InIPv6 [] none start with
        | some [a, b, c2, d] => some (acc ++ [a * 0x100 + b, c2 * 0x100 + d], compress)
        | _ => none
    else if c = ':' then
      if cs = [] then none else parseIPv6Loop (acc ++ [value]) compress none cs
    else none

/-- The IPv6 parser; `none` is failure. -/
def parseIPv6 (input : Str) : Option (List Nat) :=
  let start : Option (List Nat × Option Nat × Str) :=
    match input with
    | ':' :: ':' :: rest => some ([0], some 1, rest)
    | ':' :: _ => none
    | _ => some ([], none, input)
  match start with
  | none => none
  | some (acc, compress, rest) =>
    match parseIPv6Loop acc compress none rest with
    | none => none
    | some (pieces, some k) =>
      some (pieces.take k ++ List.replicate (8 - pieces.length) 0 ++ pieces.drop k)
    | some (pieces, none) => if pieces.length = 8 then some pieces else none

/-- Does some label of the domain start with `xn--` (ASCII case-insensitively). -/
def hasPunycodeLabel (domain : Str) : Bool :=
  (strictSplit '.' domain).any
    (fun label => (label.take 4).map asciiLower == ['x', 'n', '-', '-'])

/-- Domain to ASCII for a host string (percent-decode, UTF-8 decode, Unicode
ToASCII, then the checks of the URL Standard). For an ASCII domain without an
`xn--` label Unicode ToASCII is ASCII lowercasing, as the standard notes; on every
other domain the Unicode tables decide, and that operation is the parameter
`toASCII`, applied to the percent-decoded bytes. -/
def domainToASCII (toASCII : List Nat → Option Str) (input : Str) : Option Str :=
  let bytes := percentDecode (input.flatMap utf8Encode)
  let result : Option Str :=
    if bytes.all (fun b => decide (b < 0x80)) ∧ ¬ hasPunycodeLabel (bytes.map Char.ofNat) then
      some ((bytes.map Char.ofNat).map asciiLower)
    else toASCII bytes
  match result with
  | none => none
  | some r => if r = [] ∨ r.any isForbiddenDomainCodePoint then none else some r

/-- The host parser; `none` is failure. `notSpecial` is the standard's isOpaque
argument. -/
def hostParser (toASCII : List Nat → Option Str) (input : Str) (notSpecial : Bool) :
    Option Host :=
  match input with
  | '[' :: rest =>
    if rest.getLast? = some ']' then (parseIPv6 rest.dropLast).map Host.ipv6 else none
  | _ =>
    if notSpecial then
      if input.any isForbiddenHostCodePoint then none
      else if input = [] then some Host.empty
      else some (Host.rawHost (utf8PercentEncodeString inC0ControlSet input))
    else
      match domainToASCII toASCII input with
      | none => none
      | some asciiDomain =>
        if endsInANumber asciiDomain then (parseIPv4 asciiDomain).map Host.ipv4
        else some (Host.domain asciiDomain)

/-! ## URL records (URL Standard, section 4.1) -/

/-- A URL path: a string (a URL that cannot be a base) or a list of segments. -/
inductive UrlPath where
  | text (s : Str)
  | segments (l : List Str)
  deriving DecidableEq, Repr

/-- A URL record. -/
structure Url where
  scheme : Str
  username : Str
  password : Str
  host : Option Host
  port : Option Nat
  path : UrlPath
  query : Option Str
  fragment : Option Str
  deriving DecidableEq, Repr

/-- The record the basic URL parser starts from. -/
def Url.blank : Url :=
  { scheme := [], username := [], password := [], host := none, port := none,
    path := UrlPath.segments [], query := none, fragment := none }

/-- Default port of a special scheme; `none` for the scheme `file`. -/
def specialSchemePort (scheme : Str) : Option (Option Nat) :=
  if scheme = ['f', 't', 'p'] then some (some 21)
  else if scheme = ['f', 'i', 'l', 'e'] then some none
  else if scheme = ['h', 't', 't', 'p'] then some (some 80)
  else if scheme = ['h', 't', 't', 'p', 's'] then some (some 443)
  else if scheme = ['w', 's'] then some (some 80)
  else if scheme = ['w', 's', 's'] then some (some 443)
  else none

/-- Is the scheme a special scheme. -/
def isSpecialScheme (scheme : Str) : Bool := (specialSchemePort scheme).isSome

/-- Is the URL special. -/
def Url.isSpecial (url : Url) : Bool := isSpecialScheme url.scheme

/-- Is the scheme `file`. -/
def isFileScheme (scheme : Str) : Bool := decide (scheme = ['f', 'i', 'l', 'e'])

/-- Does the URL have a string for a path. -/
def Url.hasTextPath (url : Url) : Bool :=
  match url.path with
  | UrlPath.text _ => true
  | UrlPath.segments _ => false

/-- A Windows drive letter: an ASCII alpha followed by `:` or `|`. -/
def isWindowsDriveLetter (s : Str) : Bool :=
  match s with
  | [a, b] => isAsciiAlpha a && (decide (b = ':') || decide (b = '|'))
  | _ => false

/-- A normalized Windows drive letter: an ASCII alpha followed by `:`. -/
def isNormalizedWindowsDriveLetter (s : Str) : Bool :=
  match s with
  | [a, b] => isAsciiAlpha a && decide (b = ':')
  | _ => false

/-- A string starts with a Windows drive letter. -/
def startsWithWindowsDriveLetter (s : Str) : Bool :=
  match s with
  | [a, b] => isWindowsDriveLetter [a, b]
  | a :: b :: c :: _ =>
    isWindowsDriveLetter [a, b] &&
      (decide (c = '/') || decide (c = '\\') || decide (c = '?') || decide (c = '#'))
  | _ => false

/-- A single-dot URL path segment. -/
def isSingleDotSegment (s : Str) : Bool :=
  decide (s = ['.']) || decide (s.map asciiLower = ['%', '2', 'e'])

/-- A double-dot URL path segment. -/
def isDoubleDotSegment (s : Str) : Bool :=
  decide (s = ['.', '.']) || decide (s.map asciiLower = ['.', '%', '2', 'e'])
    || decide (s.map asciiLower = ['%', '2', 'e', '.'])
    || decide (s.map asciiLower = ['%', '2', 'e', '%', '2', 'e'])

/-- Shorten a URL's path. -/
def shortenPath (url : Url) : Url :=
  match url.path with
  | UrlPath.text _ => url
  | UrlPath.segments l =>
    match l with
    | [seg] =>
      if isFileScheme url.scheme && isNormalizedWindowsDriveLetter seg then url
      else { url with path := UrlPath.segments [] }
    | _ => { url with path := UrlPath.segments l.dropLast }

/-- Append a segment to a URL's path. -/
def appendSegment (url : Url) (seg : Str) : Url :=
  match url.path with
  | UrlPath.text _ => url
  | UrlPath.segments l => { url with path := UrlPath.segments (l ++ [seg]) }

/-- Is the URL's path the empty list. -/
def Url.pathIsEmpty (url : Url) : Bool := decide (url.path = UrlPath.segments [])

/-- The path serializer, which is what the `pathname` getter returns. -/
def Url.pathname (url : Url) : Str :=
  match url.path with
  | UrlPath.text s => s
  | UrlPath.segments l => l.flatMap (fun seg => '/' :: seg)

/-! ## The basic URL parser (URL Standard, section 4.4)

One function per state of the standard's state machine, in the reverse of the
order in which the states hand over to one another. A state function receives
the input from the pointer on (the empty list is the end of input) and returns
the finished URL record, or `none` for failure. Where the standard decreases the
pointer, the next state function receives the current code point again. The
state override and the encoding arguments are not modelled: `new URL` passes
neither (the encoding is UTF-8). Validation errors do not stop the parser and
are not recorded. -/

/-- The fragment state. -/
def fragmentState (url : Url) : Str → Option Url
  | [] => some url
  | c :: cs =>
    fragmentState
      { url with fragment := some (url.fragment.getD [] ++ utf8PercentEncode inFragmentSet c) } cs

/-- End of the query state: percent-encode the buffer and append it to the query. -/
def appendQuery (url : Url) (buffer : Str) : Url :=
  { url with
    query := some (url.query.getD [] ++
      utf8PercentEncodeString (if url.isSpecial then inSpecialQuerySet else inQuerySet) buffer) }

/-- The query state. -/
def queryState (url : Url) (buffer : Str) : Str → Option Url
  | [] => some (appendQuery url buffer)
  | c :: cs =>
    if c = '#' then fragmentState { appendQuery url buffer with fragment := some [] } cs
    else queryState url (buffer ++ [c]) cs

/-- The cannot-be-a-base-URL path state (a path that is one string). Editions of
the standard differ on the spaces of such a path; it never starts with `/`, so it
equals no route. -/
def cannotBeABaseURLPathState (url : Url) : Str → Option Url
  | [] => some url
  | c :: cs =>
    if c = '?' then queryState { url with query := some [] } [] cs
    else if c = '#' then fragmentState { url with fragment := some [] } cs
    else
      match url.path with
      | UrlPath.text s =>
        cannotBeABaseURLPathState
          { url with path := UrlPath.text (s ++ utf8PercentEncode inC0ControlSet c) } cs
      | UrlPath.segments _ => cannotBeABaseURLPathState url cs

/-- What the path state does with the buffer when a segment ends; `slash` tells
whether the segment ended at `/` (or at `\` in a special URL). -/
def endSegment (url : Url) (buffer : Str) (slash : Bool) : Url :=
  if isDoubleDotSegment buffer then
    if slash then shortenPath url else appendSegment (shortenPath url) []
  else if isSingleDotSegment buffer then
    if slash then url else appendSegment url []
  else
    match buffer with
    | [a, b] =>
      if isFileScheme url.scheme && url.pathIsEmpty && isWindowsDriveLetter [a, b] then
        appendSegment url [a, ':']
      else appendSegment url buffer
    | _ => appendSegment url buffer

/-- The path state. -/
def pathState (url : Url) (buffer : Str) : Str → Option Url
  | [] => some (endSegment url buffer false)
  | c :: cs =>
    if c = '/' ∨ (url.isSpecial ∧ c = '\\') then pathState (endSegment url buffer true) [] cs
    else if c = '?' then queryState { endSegment url buffer false with query := some [] } [] cs
    else if c = '#' then fragmentState { endSegment url buffer false with fragment := some [] } cs
    else pathState url (buffer ++ utf8PercentEncode inPathSet c) cs

/-- The path start state. -/
def pathStartState (url : Url) (input : Str) : Option Url :=
  if url.isSpecial then
    match input with
    | c :: cs => if c = '/' ∨ c = '\\' then pathState url [] cs else pathState url [] input
    | [] => pathState url [] []
  else
    match input with
    | [] => some url
    | c :: cs =>
      if c = '?' then queryState { url with query := some [] } [] cs
      else if c = '#' then fragmentState { url with fragment := some [] } cs
      else if c = '/' then pathState url [] cs
      else pathState url [] input

/-- Does the authority (host or port) end at this code point. -/
def endsAuthority (url : Url) (c : Char) : Bool :=
  decide (c = '/') || decide (c = '?') || decide (c = '#') || (url.isSpecial && decide (c = '\\'))

/-- End of the port state: store the port read into the buffer. -/
def storePort (url : Url) (buffer : Str) : Option Url :=
  if buffer = [] then some url
  else if 65535 < digitsValue 10 buffer then none
  else if specialSchemePort url.scheme = some (some (digitsValue 10 buffer)) then
    some { url with port := none }
  else some { url with port := some (digitsValue 10 buffer) }

/-- The port state. -/
def portState (url : Url) (buffer : Str) : Str → Option Url
  | [] => (storePort url buffer).bind (fun u => pathStartState u [])
  | c :: cs =>
    if isAsciiDigit c then portState url (buffer ++ [c]) cs
    else if endsAuthority url c then (storePort url buffer).bind (fun u => pathStartState u (c :: cs))
    else none

/-- End of the host state at a code point that ends the authority. -/
def storeHost (toASCII : List Nat → Option Str) (url : Url) (buffer : Str) : Option Url :=
  if url.isSpecial ∧ buffer = [] then none
  else (hostParser toASCII buffer (!url.isSpecial)).map (fun h => { url with host := some h })

/-- The host state (and hostname state). -/
def hostState (toASCII : List Nat → Option Str) (url : Url) (buffer : Str)
    (insideBrackets : Bool) : Str → Option Url
  | [] => (storeHost toASCII url buffer).bind (fun u => pathStartState u [])
  | c :: cs =>
    if c = ':' ∧ insideBrackets = false then
      if buffer = [] then none
      else
        ((hostParser toASCII buffer (!url.isSpecial)).map
          (fun h => { url with host := some h })).bind (fun u => portState u [] cs)
    else if endsAuthority url c then
      (storeHost toASCII url buffer).bind (fun u => pathStartState u (c :: cs))
    else
      hostState toASCII url (buffer ++ [c])
        (if c = '[' then true else if c = ']' then false else insideBrackets) cs

/-- The credentials the authority state stores when it meets `@`: each code point
of the buffer goes to the username until the first `:`, then to the password. -/
def storeCredentials (url : Url) (passwordTokenSeen : Bool) : Str → Url × Bool
  | [] => (url, passwordTokenSeen)
  | c :: cs =>
    if c = ':' ∧ passwordTokenSeen = false then storeCredentials url true cs
    else if passwordTokenSeen then
      storeCredentials
        { url with password := url.password ++ utf8PercentEncode inUserinfoSet c } true cs
    else
      storeCredentials
        { url with username := url.username ++ utf8PercentEncode inUserinfoSet c } false cs

/-- The authority state. At the end of the authority the pointer goes back to the
start of the buffer, so the host state receives the buffer and the rest. -/
def authorityState (toASCII : List Nat → Option Str) (url : Url) (buffer : Str)
    (atSignSeen passwordTokenSeen : Bool) : Str → Option Url
  | [] =>
    if atSignSeen ∧ buffer = [] then none else hostState toASCII url [] false buffer
  | c :: cs =>
    if c = '@' then
      authorityState toASCII
        (storeCredentials url passwordTokenSeen
          (if atSignSeen then '%' :: '4' :: '0' :: buffer else buffer)).1 [] true
        (storeCredentials url passwordTokenSeen
          (if atSignSeen then '%' :: '4' :: '0' :: buffer else buffer)).2 cs
    else if endsAuthority url c then
      if atSignSeen ∧ buffer = [] then none
      else hostState toASCII url [] false (buffer ++ c :: cs)
    else authorityState toASCII url (buffer ++ [c]) atSignSeen passwordTokenSeen cs

/-- The special authority ignore slashes state. -/
def specialAuthorityIgnoreSlashesState (toASCII : List Nat → Option Str) (url : Url) :
    Str → Option Url
  | [] => authorityState toASCII url [] false false []
  | c :: cs =>
    if c = '/' ∨ c = '\\' then specialAuthorityIgnoreSlashesState toASCII url cs
    else authorityState toASCII url [] false false (c :: cs)

/-- The special authority slashes state. -/
def specialAuthoritySlashesState (toASCII : List Nat → Option Str) (url : Url)
    (input : Str) : Option Url :=
  match input with
  | c :: d :: cs =>
    if c = '/' ∧ d = '/' then specialAuthorityIgnoreSlashesState toASCII url cs
    else specialAuthorityIgnoreSlashesState toASCII url input
  | _ => specialAuthorityIgnoreSlashesState toASCII url input

/-- The path or authority state. -/
def pathOrAuthorityState (toASCII : List Nat → Option Str) (url : Url) (input : Str) :
    Option Url :=
  match input with
  | c :: cs =>
    if c = '/' then authorityState toASCII url [] false false cs else pathState url [] input
  | [] => pathState url [] input

/-- The relative slash state. -/
def relativeSlashState (toASCII : List Nat → Option Str) (url base : Url) (input : Str) :
    Option Url :=
  match input with
  | [] =>
    pathState
      { url with username := base.username, password := base.password, host := base.host,
                 port := base.port } [] []
  | c :: cs =>
    if url.isSpecial ∧ (c = '/' ∨ c = '\\') then specialAuthorityIgnoreSlashesState toASCII url cs
    else if c = '/' then authorityState toASCII url [] false false cs
    else
      pathState
        { url with username := base.username, password := base.password, host := base.host,
                   port := base.port } [] input

/-- The relative state. -/
def relativeState (toASCII : List Nat → Option Str) (url base : Url) (input : Str) :
    Option Url :=
  let url := { url with scheme := base.scheme }
  let copied : Url :=
    { url with username := base.username, password := base.password, host := base.host,
               port := base.port, path := base.path, query := base.query }
  match input with
  | [] => some copied
  | c :: cs =>
    if c = '/' then relativeSlashState toASCII url base cs
    else if url.isSpecial ∧ c = '\\' then relativeSlashState toASCII url base cs
    else if c = '?' then queryState { copied with query := some [] } [] cs
    else if c = '#' then fragmentState { copied with fragment := some [] } cs
    else pathState (shortenPath { copied with query := none }) [] input

/-- The special relative or authority state. -/
def specialRelativeOrAuthorityState (toASCII : List Nat → Option Str) (url base : Url)
    (input : Str) : Option Url :=
  match input with
  | c :: d :: cs =>
    if c = '/' ∧ d = '/' then specialAuthorityIgnoreSlashesState toASCII url cs
    else relativeState toASCII url base input
  | _ => relativeState toASCII url base input

/-- End of the file host state with a buffer that is not empty: parse the host,
and store the empty host for `localhost`. -/
def storeFileHost (toASCII : List Nat → Option Str) (url : Url) (buffer : Str) : Option Url :=
  (hostParser toASCII buffer (!url.isSpecial)).map (fun h =>
    if h = Host.domain ['l', 'o', 'c', 'a', 'l', 'h', 'o', 's', 't'] then
      { url with host := some Host.empty }
    else { url with host := some h })

/-- The file host state. -/
def fileHostState (toASCII : List Nat → Option Str) (url : Url) (buffer : Str) :
    Str → Option Url
  | [] =>
    if isWindowsDriveLetter buffer then pathState url buffer []
    else if buffer = [] then pathStartState { url with host := some Host.empty } []
    else
      (storeFileHost toASCII url buffer).bind (fun u => pathStartState u [])
  | c :: cs =>
    if c = '/' ∨ c = '\\' ∨ c = '?' ∨ c = '#' then
      if isWindowsDriveLetter buffer then pathState url buffer (c :: cs)
      else if buffer = [] then pathStartState { url with host := some Host.empty } (c :: cs)
      else
        (storeFileHost toASCII url buffer).bind (fun u => pathStartState u (c :: cs))
    else fileHostState toASCII url (buffer ++ [c]) cs

/-- What the file slash state takes from the base when the code point is not a
slash: the host of a `file` base and, unless the input starts with a Windows drive
letter, the drive letter that the base's path starts with. -/
def fileSlashInherit (url : Url) (base : Option Url) (inputStartsWithDrive : Bool) : Url :=
  match base with
  | some b =>
    if isFileScheme b.scheme then
      match b.path with
      | UrlPath.segments (first :: _) =>
        if !inputStartsWithDrive && isNormalizedWindowsDriveLetter first then
          appendSegment { url with host := b.host } first
        else { url with host := b.host }
      | _ => { url with host := b.host }
    else url
  | none => url

/-- The file slash state. -/
def fileSlashState (toASCII : List Nat → Option Str) (url : Url) (base : Option Url)
    (input : Str) : Option Url :=
  match input with
  | [] => pathState (fileSlashInherit url base (startsWithWindowsDriveLetter input)) [] []
  | c :: cs =>
    if c = '/' ∨ c = '\\' then fileHostState toASCII url [] cs
    else pathState (fileSlashInherit url base (startsWithWindowsDriveLetter input)) [] input

/-- What the file state copies from a `file` base: host, path and query. -/
def fileCopyBase (url : Url) (base : Option Url) : Option Url :=
  match base with
  | some b =>
    if isFileScheme b.scheme then
      some { url with host := b.host, path := b.path, query := b.query }
    else none
  | none => none

/-- The file state at a code point that is not a slash; `copied` is the record
with the parts copied from a `file` base, when there is one. -/
def fileStateNoSlash (url : Url) (copied : Option Url) (input : Str) : Option Url :=
  match copied with
  | none => pathState url [] input
  | some cp =>
    match input with
    | [] => some cp
    | c :: cs =>
      if c = '?' then queryState { cp with query := some [] } [] cs
      else if c = '#' then fragmentState { cp with fragment := some [] } cs
      else if !startsWithWindowsDriveLetter input then
        pathState (shortenPath { cp with query := none }) [] input
      else pathState { cp with query := none, path := UrlPath.segments [] } [] input

/-- The file state. -/
def fileState (toASCII : List Nat → Option Str) (url : Url) (base : Option Url)
    (input : Str) : Option Url :=
  match input with
  | [] =>
    fileStateNoSlash { url with scheme := ['f', 'i', 'l', 'e'], host := some Host.empty }
      (fileCopyBase { url with scheme := ['f', 'i', 'l', 'e'], host := some Host.empty } base)
      input
  | c :: cs =>
    if c = '/' ∨ c = '\\' then
      fileSlashState toASCII { url with scheme := ['f', 'i', 'l', 'e'], host := some Host.empty }
        base cs
    else
      fileStateNoSlash { url with scheme := ['f', 'i', 'l', 'e'], host := some Host.empty }
        (fileCopyBase { url with scheme := ['f', 'i', 'l', 'e'], host := some Host.empty } base)
        input

/-- The no scheme state. -/
def noSchemeState (toASCII : List Nat → Option Str) (base : Option Url) (input : Str) :
    Option Url :=
  match base with
  | none => none
  | some b =>
    if b.hasTextPath then
      match input with
      | c :: cs =>
        if c = '#' then
          fragmentState
            { Url.blank with scheme := b.scheme, path := b.path, query := b.query,
                             fragment := some [] } cs
        else none
      | [] => none
    else if !isFileScheme b.scheme then relativeState toASCII Url.blank b input
    else fileState toASCII Url.blank base input

/-- What the scheme state does at the `:` that ends a scheme. -/
def afterScheme (toASCII : List Nat → Option Str) (base : Option Url) (scheme : Str)
    (rest : Str) : Option Url :=
  let url := { Url.blank with scheme := scheme }
  if isFileScheme scheme then fileState toASCII url base rest
  else if isSpecialScheme scheme then
    match base with
    | some b =>
      if b.scheme = scheme then specialRelativeOrAuthorityState toASCII url b rest
      else specialAuthoritySlashesState toASCII url rest
    | none => specialAuthoritySlashesState toASCII url rest
  else
    match rest with
    | c :: cs =>
      if c = '/' then pathOrAuthorityState toASCII url cs
      else cannotBeABaseURLPathState { url with path := UrlPath.text [] } rest
    | [] => cannotBeABaseURLPathState { url with path := UrlPath.text [] } rest

/-- The scheme state; `whole` is the input from its first code point, where the
parser starts over when no scheme is found. -/
def schemeState (toASCII : List Nat → Option Str) (base : Option Url) (whole : Str)
    (buffer : Str) : Str → Option Url
  | [] => noSchemeState toASCII base whole
  | c :: cs =>
    if isAsciiAlphanumeric c ∨ c = '+' ∨ c = '-' ∨ c = '.' then
      schemeState toASCII base whole (buffer ++ [asciiLower c]) cs
    else if c = ':' then afterScheme toASCII base buffer cs
    else noSchemeState toASCII base whole

/-- The scheme start state. -/
def schemeStartState (toASCII : List Nat → Option Str) (base : Option Url) (input : Str) :
    Option Url :=
  match input with
  | [] => noSchemeState toASCII base input
  | c :: cs =>
    if isAsciiAlpha c then schemeState toASCII base input [asciiLower c] cs
    else noSchemeState toASCII base input

/-- Remove the trailing C0 controls and spaces. -/
def trimEnd (s : Str) : Str := (s.reverse.dropWhile isC0ControlOrSpace).reverse

/-- Remove leading and trailing C0 controls and spaces, then every ASCII tab and
newline: what the basic URL parser does to its input first. -/
def cleanInput (input : Str) : Str :=
  (trimEnd (input.dropWhile isC0ControlOrSpace)).filter (fun c => !isTabOrNewline c)

/-- The basic URL parser, without state override. -/
def basicUrlParser (toASCII : List Nat → Option Str) (input : Str) (base : Option Url) :
    Option Url :=
  schemeStartState toASCII base (cleanInput input)

/-- The `URL(url, base)` constructor: parse the base, then the url against it; `none`
is the `TypeError` that the constructor throws. -/
def newURL (toASCII : List Nat → Option Str) (url base : String) : Option Url :=
  match basicUrlParser toASCII base.data none with
  | none => none
  | some parsedBase => basicUrlParser toASCII url.data (some parsedBase)

/-! ## `JSON.stringify` on the payloads (ECMA-262, QuoteJSONString) -/

/-- Lower-case hex digit for a value below 16. -/
def hexDigitLower (n : Nat) : Char :=
  if n < 10 then Char.ofNat (0x30 + n) else Char.ofNat (0x61 + (n - 10))

/-- How QuoteJSONString writes one code point. -/
def quoteJSONChar (c : Char) : Str :=
  if c.toNat = 0x08 then ['\\', 'b']
  else if c.toNat = 0x09 then ['\\', 't']
  else if c.toNat = 0x0A then ['\\', 'n']
  else if c.toNat = 0x0C then ['\\', 'f']
  else if c.toNat = 0x0D then ['\\', 'r']
  else if c.toNat = 0x22 then ['\\', '"']
  else if c.toNat = 0x5C then ['\\', '\\']
  else if c.toNat < 0x20 then
    ['\\', 'u', hexDigitLower (c.toNat / 0x1000 % 16), hexDigitLower (c.toNat / 0x100 % 16),
      hexDigitLower (c.toNat / 0x10 % 16), hexDigitLower (c.toNat % 16)]
  else [c]

/-- QuoteJSONString: the string between double quotes, escaped. -/
def quoteJSONString (s : Str) : Str := '"' :: (s.flatMap quoteJSONChar ++ ['"'])

/-- The members of the serialized object: a property whose value is `undefined`
(`none`) is left out, as SerializeJSONObject does. -/
def jsonMembers : List (String × Option String) → List Str
  | [] => []
  | (_, none) :: rest => jsonMembers rest
  | (k, some v) :: rest => (quoteJSONString k.data ++ ':' :: quoteJSONString v.data) :: jsonMembers rest

/-- Join with commas. -/
def joinComma : List Str → Str
  | [] => []
  | [m] => m
  | m :: rest => m ++ ',' :: joinComma rest

/-- `JSON.stringify` of an object literal whose property values are strings or
`undefined`, the properties in the order of the literal. -/
def jsonStringify (props : List (String × Option String)) : String :=
  String.mk ('\x7b' :: (joinComma (jsonMembers props) ++ ['\x7d']))

/-- The properties of an object literal that `JSON.stringify` writes: those whose
value is not `undefined`. -/
def definedProps : List (String × Option String) → List (String × String)
  | [] => []
  | (_, none) :: rest => definedProps rest
  | (k, some v) :: rest => (k, v) :: definedProps rest

/-- The text of one member. -/
def memberText (kv : String × String) : Str :=
  quoteJSONString kv.1.data ++ ':' :: quoteJSONString kv.2.data

/-! ## Decoding a JSON body

The reading of a JSON text that the claims about the decoded body refer to: the
part of the JSON grammar made of objects whose members are strings, without
insignificant white space and without escapes of surrogates. On a text of that
part it returns the members that `JSON.parse` finds, in order. -/

/-- Where the reader of a JSON string stands: between characters, behind a
backslash, or inside a `\u` escape with `count` hex digits read, of value `value`. -/
inductive Pending where
  | plain
  | escape
  | hex (count value : Nat)

/-- The character a one-letter escape stands for. -/
def unescapeJSONChar (e : Char) : Option Char :=
  if e = '"' then some '"'
  else if e = '\\' then some '\\'
  else if e = '/' then some '/'
  else if e = 'b' then some (Char.ofNat 0x08)
  else if e = 'f' then some (Char.ofNat 0x0C)
  else if e = 'n' then some (Char.ofNat 0x0A)
  else if e = 'r' then some (Char.ofNat 0x0D)
  else if e = 't' then some (Char.ofNat 0x09)
  else none

/-- Read a JSON string from behind its opening quote: the string and the input
behind the closing quote. -/
def readJSONStringFrom : Pending → Str → Option (Str × Str)
  | _, [] => none
  | Pending.plain, c :: cs =>
    if c = '"' then some ([], cs)
    else if c = '\\' then readJSONStringFrom Pending.escape cs
    else if c.toNat < 0x20 then none
    else (readJSONStringFrom Pending.plain cs).map (fun r => (c :: r.1, r.2))
  | Pending.escape, e :: cs =>
    if e = 'u' then readJSONStringFrom (Pending.hex 0 0) cs
    else
      match unescapeJSONChar e with
      | none => none
      | some d => (readJSONStringFrom Pending.plain cs).map (fun r => (d :: r.1, r.2))
  | Pending.hex count value, h :: cs =>
    if isAsciiHexDigit h then
      if count = 3 then
        if 0xD800 ≤ value * 16 + hexValue h ∧ value * 16 + hexValue h ≤ 0xDFFF then none
        else
          (readJSONStringFrom Pending.plain cs).map
            (fun r => (Char.ofNat (value * 16 + hexValue h) :: r.1, r.2))
      else readJSONStringFrom (Pending.hex (count + 1) (value * 16 + hexValue h)) cs
    else none

/-- Read a JSON string from behind its opening quote. -/
def readJSONString (input : Str) : Option (Str × Str) := readJSONStringFrom Pending.plain input

/-- Read one member `"key":"value"`. -/
def readJSONMember (input : Str) : Option ((String × String) × Str) :=
  match input with
  | '"' :: afterQuote =>
    match readJSONString afterQuote with
    | some (key, ':' :: '"' :: afterColon) =>
      match readJSONString afterColon with
      | some (value, rest) => some ((String.mk key, String.mk value), rest)
      | none => none
    | _ => none
  | _ => none

/-- Read the members of an object up to the closing brace, which must end the
text; `fuel` bounds the number of members. -/
def readJSONMembers : Nat → Str → Option (List (String × String))
  | 0, _ => none
  | fuel + 1, input =>
    match readJSONMember input with
    | none => none
    | some (member, rest) =>
      match rest with
      | ['\x7d'] => some [member]
      | ',' :: more => (readJSONMembers fuel more).map (fun ms => member :: ms)
      | _ => none

/-- Decode a JSON text that is an object of string members. -/
def jsonDecode (text : String) : Option (List (String × String)) :=
  match text.data with
  | ['\x7b', '\x7d'] => some []
  | '\x7b' :: rest => readJSONMembers text.length rest
  | _ => none

/-! ## The server (`src/app/server.js`) -/

/-- `a || b` where `a` is a string or `undefined`: `b` when `a` is `undefined` or
the empty string. -/
def orDefault (a : Option String) (b : String) : String :=
  match a with
  | none => b
  | some s => if s = "" then b else s

/-- `const VERSION = process.env.VERSION || 'dev-local'`, for a process
environment `env`. -/
def VERSION (env : String → Option String) : String := orDefault (env "VERSION") "dev-local"

/-- `const PHRASES`. -/
def PHRASES : List String :=
  ["I Love Sabich", "Kama Lasim Bapita?", "Ein al falafel", "And Also Tchina!"]

/-- `PHRASES[Math.floor(r * PHRASES.length)]` for the value `r` that `Math.random()`
returned; `none` is `undefined`, what an array gives at an index it does not have.
`r` is a rational: every double is one, and the product of a double below 1 with 4
is exact. -/
def randomPhraseAt (r : ℚ) : Option String :=
  if ⌊r * (PHRASES.length : ℚ)⌋ < 0 then none
  else PHRASES[(⌊r * (PHRASES.length : ℚ)⌋).toNat]?

/-- The source of `Math.random()`: the values it returns, call after call, and the
number of calls made so far. -/
structure RandomSource where
  values : Nat → ℚ
  calls : Nat

/-- One call of `Math.random()`. -/
def RandomSource.next (g : RandomSource) : ℚ × RandomSource :=
  (g.values g.calls, { g with calls := g.calls + 1 })

/-- `randomPhrase()`. -/
def randomPhrase (g : RandomSource) : Option String × RandomSource :=
  (randomPhraseAt g.next.1, g.next.2)

/-- What the handler reads of a request: the method, `req.url`,
`req.headers.host`. -/
structure IncomingMessage where
  method : String
  url : Option String
  host : Option String

/-- What the handler writes: `res.writeHead(status, headers)` and `res.end(body)`. -/
structure ServerResponse where
  statusCode : Nat
  headers : List (String × String)
  body : String
  deriving DecidableEq, Repr

/-- `new URL(req.url || '/', 'http://' + (req.headers.host || 'localhost'))`. -/
def requestUrl (toASCII : List Nat → Option Str) (req : IncomingMessage) : Option Url :=
  newURL toASCII (orDefault req.url "/") ("http://" ++ orDefault req.host "localhost")

/-- The pathname the handler routes on; `none` when `new URL` throws. -/
def requestPathname (toASCII : List Nat → Option Str) (req : IncomingMessage) : Option String :=
  (requestUrl toASCII req).map (fun u => String.mk u.pathname)

/-- The request handler passed to `http.createServer`. `none`: `new URL` threw and
nothing was written. -/
def requestListener (toASCII : List Nat → Option Str) (version : String)
    (req : IncomingMessage) (g : RandomSource) : Option (ServerResponse × RandomSource) :=
  match requestUrl toASCII req with
  | none => none
  | some url =>
    if String.mk url.pathname = "/version" ∨ String.mk url.pathname = "/" then
      some ({ statusCode := 200, headers := [("Content-Type", "application/json")],
              body := jsonStringify
                [("message", (randomPhrase g).1), ("version", some version)] },
            (randomPhrase g).2)
    else if String.mk url.pathname = "/health" then
      some ({ statusCode := 200, headers := [("Content-Type", "application/json")],
              body := jsonStringify
                [("status", some "ok"), ("message", (randomPhrase g).1),
                  ("version", some version)] },
            (randomPhrase g).2)
    else
      some ({ statusCode := 404, headers := [("Content-Type", "text/plain")],
              body := "Not Found\n" }, g)

/-- The server process handling requests one after the other with the version
label read at startup. An exception that leaves the handler is caught by nothing,
so the process ends there. -/
def serve (toASCII : List Nat → Option Str) (version : String) :
    RandomSource → List IncomingMessage → List ServerResponse
  | _, [] => []
  | g, req :: rest =>
    match requestListener toASCII version req g with
    | none => []
    | some (res, g2) => res :: serve toASCII version g2 rest

/-- The process: `VERSION` is read from the environment once, at startup. -/
def runServer (toASCII : List Nat → Option Str) (env : String → Option String)
    (g : RandomSource) (reqs : List IncomingMessage) : List ServerResponse :=
  serve toASCII (VERSION env) g reqs

/-! ## The part of an input that decides the path -/

/-- The input up to its first `?` or `#`. -/
def cut (s : Str) : Str := s.takeWhile (fun c => !(decide (c = '?') || decide (c = '#')))

/-- The path of a parse result. -/
def pathOf (r : Option Url) : Option UrlPath := r.map Url.path

/-! ## Values used where a theorem is applied to a concrete input -/

/-- A stand-in for the Unicode ToASCII operation that fails on every domain it is
asked about. The parser asks it only about domains that are not ASCII or have an
`xn--` label. -/
def noUnicode : List Nat → Option Str := fun _ => none

/-- A random source that returns `r` at every call. -/
def constantSource (r : ℚ) : RandomSource := { values := fun _ => r, calls := 0 }

/-- A `GET` request with the given target and no `Host` header. -/
def getRequest (target : String) : IncomingMessage :=
  { method := "GET", url := some target, host := none }

/-- The 404 response. -/
def notFoundResponse : ServerResponse :=
  { statusCode := 404, headers := [("Content-Type", "text/plain")], body := "Not Found\n" }

/-- The 200 response with a JSON body for the given properties. -/
def jsonResponse (props : List (String × Option String)) : ServerResponse :=
  { statusCode := 200, headers := [("Content-Type", "application/json")],
    body := jsonStringify props }

/-- The environment in which `VERSION` is set to the empty string. -/
def emptyVersionEnv : String → Option String :=
  fun name => if name = "VERSION" then some "" else none

/-- The environment of scenario 3: `VERSION=1.2.3`. -/
def scenarioEnv : String → Option String :=
  fun name => if name = "VERSION" then some "1.2.3" else none

/-! ## Theorems: code points and JSON -/

theorem char_eq_ofNat_of_toNat {c : Char} {n : Nat} (h : c.toNat = n) : c = Char.ofNat n := by
  rw [← h, Char.ofNat_toNat]

/-- Reading back a control character written as a `\u00XX` escape. -/
theorem readJSONStringFrom_unicode_escape (n : Nat) (hn : n < 0x20) (rest : Str) :
    readJSONStringFrom Pending.plain
      ('\\' :: 'u' :: hexDigitLower (n / 0x1000 % 16) :: hexDigitLower (n / 0x100 % 16) ::
        hexDigitLower (n / 0x10 % 16) :: hexDigitLower (n % 16) :: rest)
      = (readJSONStringFrom Pending.plain rest).map (fun r => (Char.ofNat n :: r.1, r.2)) := by
  interval_cases n <;> rfl

/-- Reading back a one-letter escape. -/
theorem readJSONStringFrom_letter_escape (e d : Char) (h : e ≠ 'u')
    (hd : unescapeJSONChar e = some d) (rest : Str) :
    readJSONStringFrom Pending.plain ('\\' :: e :: rest)
      = (readJSONStringFrom Pending.plain rest).map (fun r => (d :: r.1, r.2)) := by
  have h1 : readJSONStringFrom Pending.plain ('\\' :: e :: rest)
      = readJSONStringFrom Pending.escape (e :: rest) := rfl
  rw [h1, readJSONStringFrom, if_neg h, hd]

/-- Reading back one quoted code point. -/
theorem readJSONStringFrom_quoteJSONChar (c : Char) (rest : Str) :
    readJSONStringFrom Pending.plain (quoteJSONChar c ++ rest)
      = (readJSONStringFrom Pending.plain rest).map (fun r => (c :: r.1, r.2)) := by
  unfold quoteJSONChar
  split_ifs with h1 h2 h3 h4 h5 h6 h7 h8
  · rw [char_eq_ofNat_of_toNat h1]
    exact readJSONStringFrom_letter_escape 'b' _ (by decide) rfl _
  · rw [char_eq_ofNat_of_toNat h2]
    exact readJSONStringFrom_letter_escape 't' _ (by decide) rfl _
  · rw [char_eq_ofNat_of_toNat h3]
    exact readJSONStringFrom_letter_escape 'n' _ (by decide) rfl _
  · rw [char_eq_ofNat_of_toNat h4]
    exact readJSONStringFrom_letter_escape 'f' _ (by decide) rfl _
  · rw [char_eq_ofNat_of_toNat h5]
    exact readJSONStringFrom_letter_escape 'r' _ (by decide) rfl _
  · rw [char_eq_ofNat_of_toNat h6]
    exact readJSONStringFrom_letter_escape '"' _ (by decide) rfl _
  · rw [char_eq_ofNat_of_toNat h7]
    exact readJSONStringFrom_letter_escape '\\' _ (by decide) rfl _
  · simp only [List.cons_append, List.nil_append]
    rw [readJSONStringFrom_unicode_escape c.toNat h8, Char.ofNat_toNat]
  · have hq : c ≠ '"' := fun h => h6 (by rw [h]; rfl)
    have hb : c ≠ '\\' := fun h => h7 (by rw [h]; rfl)
    simp only [List.cons_append, List.nil_append]
    rw [readJSONStringFrom, if_neg hq, if_neg hb, if_neg h8]

/-- Reading back a quoted string: every string, whatever it contains. -/
theorem readJSONStringFrom_quote (s rest : Str) :
    readJSONStringFrom Pending.plain (s.flatMap quoteJSONChar ++ '"' :: rest) = some (s, rest) := by
  induction s with
  | nil => rfl
  | cons c cs ih =>
    rw [List.flatMap_cons, List.append_assoc, readJSONStringFrom_quoteJSONChar, ih]
    rfl

theorem jsonMembers_eq (props : List (String × Option String)) :
    jsonMembers props = (definedProps props).map memberText := by
  induction props with
  | nil => rfl
  | cons p rest ih =>
    obtain ⟨k, v⟩ := p
    cases v with
    | none => simpa [jsonMembers, definedProps] using ih
    | some v => simp [jsonMembers, definedProps, memberText, ih]

theorem readJSONMember_memberText (kv : String × String) (rest : Str) :
    readJSONMember (memberText kv ++ rest) = some (kv, rest) := by
  obtain ⟨k, v⟩ := kv
  have h : memberText (k, v) ++ rest
      = '"' :: (k.data.flatMap quoteJSONChar ++ '"' :: (':' :: '"' ::
          (v.data.flatMap quoteJSONChar ++ '"' :: rest))) := by
    simp [memberText, quoteJSONString]
  rw [h]
  simp only [readJSONMember, readJSONString, readJSONStringFrom_quote]

theorem readJSONMembers_joinComma (kv : String × String) (kvs : List (String × String)) :
    ∀ fuel, kvs.length < fuel →
      readJSONMembers fuel (joinComma ((kv :: kvs).map memberText) ++ ['\x7d'])
        = some (kv :: kvs) := by
  induction kvs generalizing kv with
  | nil =>
    intro fuel h
    obtain ⟨n, rfl⟩ : ∃ n, fuel = n + 1 := ⟨fuel - 1, by simp at h; omega⟩
    simp only [List.map_cons, List.map_nil, joinComma, readJSONMembers, readJSONMember_memberText]
  | cons kv2 kvs ih =>
    intro fuel h
    obtain ⟨n, rfl⟩ : ∃ n, fuel = n + 1 := ⟨fuel - 1, by simp at h; omega⟩
    have hn : kvs.length < n := by simp at h; omega
    have := ih kv2 n hn
    simp only [List.map_cons] at this
    simp only [List.map_cons, joinComma, List.append_assoc, List.cons_append, readJSONMembers,
      readJSONMember_memberText, this, Option.map_some']

theorem joinComma_length (ms : List Str) : ms.length ≤ (joinComma ms).length + 1 := by
  induction ms with
  | nil => simp
  | cons m rest ih =>
    cases rest with
    | nil => simp [joinComma]
    | cons m2 rest2 =>
      simp only [joinComma, List.length_append, List.length_cons] at ih ⊢
      omega

/-- Decoding what `JSON.stringify` wrote gives back the properties that have a
value, in order, whatever the strings contain. -/
theorem jsonDecode_jsonStringify (props : List (String × Option String)) :
    jsonDecode (jsonStringify props) = some (definedProps props) := by
  rw [jsonStringify, jsonMembers_eq]
  cases hd : definedProps props with
  | nil => rfl
  | cons kv kvs =>
    have hq : ∃ x, joinComma ((kv :: kvs).map memberText) = '"' :: x := by
      cases kvs with
      | nil => exact ⟨_, by simp [joinComma, memberText, quoteJSONString]; rfl⟩
      | cons kv2 kvs2 => exact ⟨_, by simp [joinComma, memberText, quoteJSONString]; rfl⟩
    obtain ⟨x, hx⟩ := hq
    have hlen := joinComma_length ((kv :: kvs).map memberText)
    have := readJSONMembers_joinComma kv kvs
      (String.mk ('\x7b' :: (joinComma ((kv :: kvs).map memberText) ++ ['\x7d']))).length
      (by simp only [String.length, List.length_cons, List.length_append, List.length_map,
            List.length_nil] at hlen ⊢
          omega)
    rw [hx] at this ⊢
    simpa [jsonDecode] using this

/-! ## Theorems: the random phrase -/

theorem floor_draw_lt_four (r : ℚ) (h0 : 0 ≤ r) (h1 : r < 1) :
    0 ≤ ⌊r * 4⌋ ∧ ⌊r * 4⌋ < 4 := by
  constructor
  · exact Int.floor_nonneg.mpr (by linarith)
  · rw [Int.floor_lt]; push_cast; linarith

theorem randomPhraseAt_eq_getElem (r : ℚ) (h0 : 0 ≤ r) (h1 : r < 1) :
    ∃ i : Nat, i < 4 ∧ ⌊r * 4⌋ = (i : Int) ∧ randomPhraseAt r = PHRASES[i]? := by
  obtain ⟨hn, hl⟩ := floor_draw_lt_four r h0 h1
  refine ⟨(⌊r * 4⌋).toNat, by omega, by omega, ?_⟩
  have : (PHRASES.length : ℚ) = 4 := by simp [PHRASES]
  simp only [randomPhraseAt, this]
  rw [if_neg (by omega)]

/-- A draw in `[0, 1)` selects one of the four phrases. -/
theorem randomPhraseAt_mem (r : ℚ) (h0 : 0 ≤ r) (h1 : r < 1) :
    ∃ m, randomPhraseAt r = some m ∧ m ∈ PHRASES := by
  obtain ⟨i, hi, -, h⟩ := randomPhraseAt_eq_getElem r h0 h1
  have hlen : i < PHRASES.length := by simpa [PHRASES] using hi
  exact ⟨PHRASES[i], by rw [h, List.getElem?_eq_getElem hlen], List.getElem_mem hlen⟩

/-! ## Theorems: the handler -/

/-- The handler as a function of the pathname it routes on. -/
theorem requestListener_of_pathname {toASCII : List Nat → Option Str} {req : IncomingMessage}
    {p : String} (h : requestPathname toASCII req = some p) (version : String)
    (g : RandomSource) :
    requestListener toASCII version req g =
      if p = "/version" ∨ p = "/" then
        some (jsonResponse [("message", randomPhraseAt g.next.1), ("version", some version)],
          g.next.2)
      else if p = "/health" then
        some (jsonResponse [("status", some "ok"), ("message", randomPhraseAt g.next.1),
          ("version", some version)], g.next.2)
      else some (notFoundResponse, g) := by
  unfold requestPathname at h
  unfold requestListener
  cases hu : requestUrl toASCII req with
  | none => rw [hu] at h; simp at h
  | some url =>
    rw [hu] at h
    simp only [Option.map_some', Option.some.injEq] at h
    subst h
    rfl

/-- The handler throws exactly when `new URL` does. -/
theorem requestListener_eq_none_iff (toASCII : List Nat → Option Str) (version : String)
    (req : IncomingMessage) (g : RandomSource) :
    requestListener toASCII version req g = none ↔ requestPathname toASCII req = none := by
  unfold requestPathname requestListener
  cases requestUrl toASCII req with
  | none => simp
  | some url => simp only [Option.map_some']; split_ifs <;> simp

/-- The handler's result depends on the request through the pathname only. -/
theorem requestListener_congr_pathname (toASCII : List Nat → Option Str) (version : String)
    (req1 req2 : IncomingMessage) (g : RandomSource)
    (h : requestPathname toASCII req1 = requestPathname toASCII req2) :
    requestListener toASCII version req1 g = requestListener toASCII version req2 g := by
  cases hq : requestPathname toASCII req2 with
  | none =>
    rw [(requestListener_eq_none_iff toASCII version req2 g).mpr hq,
      (requestListener_eq_none_iff toASCII version req1 g).mpr (h.trans hq)]
  | some q =>
    rw [requestListener_of_pathname hq, requestListener_of_pathname (h.trans hq)]

/-! ## The claims about the routes -/

/-- C1: a request whose pathname is `/` or `/version` is answered 200 with
`Content-Type: application/json` and a body that decodes to exactly the members
`message` (the phrase the draw selects) and `version` (the configured label,
whatever characters it contains); the response is the same for both paths. -/
theorem version_route_response (toASCII : List Nat → Option Str) (version : String)
    (req : IncomingMessage) (g : RandomSource)
    (hpath : requestPathname toASCII req = some "/" ∨
      requestPathname toASCII req = some "/version")
    (hdraw : 0 ≤ g.next.1 ∧ g.next.1 < 1) :
    ∃ m res, randomPhraseAt g.next.1 = some m ∧ m ∈ PHRASES ∧
      requestListener toASCII version req g = some (res, g.next.2) ∧
      res.statusCode = 200 ∧ res.headers = [("Content-Type", "application/json")] ∧
      jsonDecode res.body = some [("message", m), ("version", version)] ∧
      ∀ (req2 : IncomingMessage) (g2 : RandomSource),
        (requestPathname toASCII req2 = some "/" ∨
          requestPathname toASCII req2 = some "/version") →
        g2.next.1 = g.next.1 →
        (requestListener toASCII version req2 g2).map Prod.fst = some res := by
  obtain ⟨m, hm, hmem⟩ := randomPhraseAt_mem g.next.1 hdraw.1 hdraw.2
  have key : ∀ (req2 : IncomingMessage) (g2 : RandomSource),
      (requestPathname toASCII req2 = some "/" ∨
        requestPathname toASCII req2 = some "/version") →
      g2.next.1 = g.next.1 →
      requestListener toASCII version req2 g2
        = some (jsonResponse [("message", some m), ("version", some version)], g2.next.2) := by
    intro req2 g2 h2 hg
    rcases h2 with h2 | h2 <;>
      rw [requestListener_of_pathname h2, hg, hm] <;> simp
  refine ⟨m, jsonResponse [("message", some m), ("version", some version)], hm, hmem,
    key req g hpath rfl, rfl, rfl, ?_, ?_⟩
  · simp only [jsonResponse, jsonDecode_jsonStringify, definedProps]
  · intro req2 g2 h2 hg
    rw [key req2 g2 h2 hg]
    rfl

theorem version_route_response_witness :
    (requestPathname noUnicode (getRequest "/version") = some "/" ∨
      requestPathname noUnicode (getRequest "/version") = some "/version") ∧
    (0 ≤ (constantSource (1 / 2)).next.1 ∧ (constantSource (1 / 2)).next.1 < 1) ∧
    ∃ m res, randomPhraseAt (constantSource (1 / 2)).next.1 = some m ∧ m ∈ PHRASES ∧
      requestListener noUnicode "a\"b\\c\n" (getRequest "/version") (constantSource (1 / 2))
        = some (res, (constantSource (1 / 2)).next.2) ∧
      res.statusCode = 200 ∧ res.headers = [("Content-Type", "application/json")] ∧
      jsonDecode res.body = some [("message", m), ("version", "a\"b\\c\n")] ∧
      ∀ (req2 : IncomingMessage) (g2 : RandomSource),
        (requestPathname noUnicode req2 = some "/" ∨
          requestPathname noUnicode req2 = some "/version") →
        g2.next.1 = (constantSource (1 / 2)).next.1 →
        (requestListener noUnicode "a\"b\\c\n" req2 g2).map Prod.fst = some res :=
  ⟨Or.inr (by decide), by norm_num [constantSource, RandomSource.next],
    version_route_response noUnicode "a\"b\\c\n" (getRequest "/version") (constantSource (1 / 2))
      (Or.inr (by decide)) (by norm_num [constantSource, RandomSource.next])⟩


/-- C2: a request whose pathname is `/health` is answered 200 with
`Content-Type: application/json` and a body that decodes to exactly the members
`status` = `ok`, `message` (the selected phrase) and `version` (the configured
label); the body lists them in that order. -/
theorem health_route_response (toASCII : List Nat → Option Str) (version : String)
    (req : IncomingMessage) (g : RandomSource)
    (hpath : requestPathname toASCII req = some "/health")
    (hdraw : 0 ≤ g.next.1 ∧ g.next.1 < 1) :
    ∃ m res, randomPhraseAt g.next.1 = some m ∧ m ∈ PHRASES ∧
      requestListener toASCII version req g = some (res, g.next.2) ∧
      res.statusCode = 200 ∧ res.headers = [("Content-Type", "application/json")] ∧
      jsonDecode res.body = some [("status", "ok"), ("message", m), ("version", version)] ∧
      res.body = String.mk ("\x7b\"status\":\"ok\",\"message\":".data ++ quoteJSONString m.data
        ++ ",\"version\":".data ++ quoteJSONString version.data ++ "\x7d".data) := by
  obtain ⟨m, hm, hmem⟩ := randomPhraseAt_mem g.next.1 hdraw.1 hdraw.2
  refine ⟨m, jsonResponse [("status", some "ok"), ("message", some m),
    ("version", some version)], hm, hmem, ?_, rfl, rfl, ?_, ?_⟩
  · rw [requestListener_of_pathname hpath, hm]
    simp
  · simp only [jsonResponse, jsonDecode_jsonStringify, definedProps]
  · simp [jsonResponse, jsonStringify, jsonMembers, joinComma, quoteJSONString]
    rfl

theorem health_route_response_witness :
    requestPathname noUnicode (getRequest "/health") = some "/health" ∧
    (0 ≤ (constantSource (3 / 4)).next.1 ∧ (constantSource (3 / 4)).next.1 < 1) ∧
    ∃ m res, randomPhraseAt (constantSource (3 / 4)).next.1 = some m ∧ m ∈ PHRASES ∧
      requestListener noUnicode "1.2.3" (getRequest "/health") (constantSource (3 / 4))
        = some (res, (constantSource (3 / 4)).next.2) ∧
      res.statusCode = 200 ∧ res.headers = [("Content-Type", "application/json")] ∧
      jsonDecode res.body = some [("status", "ok"), ("message", m), ("version", "1.2.3")] ∧
      res.body = String.mk ("\x7b\"status\":\"ok\",\"message\":".data ++ quoteJSONString m.data
        ++ ",\"version\":".data ++ quoteJSONString "1.2.3".data ++ "\x7d".data) :=
  ⟨by decide, by norm_num [constantSource, RandomSource.next],
    health_route_response noUnicode "1.2.3" (getRequest "/health") (constantSource (3 / 4))
      (by decide) (by norm_num [constantSource, RandomSource.next])⟩

/-- C3: a request whose pathname is none of `/`, `/version`, `/health` is answered
404 with `Content-Type: text/plain` and the 10-character body `Not Found` plus a
newline, and `Math.random` is not called; near misses of the three paths are such
requests; and a response has status 200 only when the pathname is one of the
three. -/
theorem not_found_response (toASCII : List Nat → Option Str) (version : String)
    (req : IncomingMessage) (g : RandomSource) (p : String)
    (hp : requestPathname toASCII req = some p)
    (h : p ≠ "/" ∧ p ≠ "/version" ∧ p ≠ "/health") :
    requestListener toASCII version req g
        = some ({ statusCode := 404, headers := [("Content-Type", "text/plain")],
                  body := "Not Found\n" }, g) ∧
      "Not Found\n".data = "Not Found".data ++ ['\n'] ∧ "Not Found\n".length = 10 ∧
      (∀ t ∈ ["/health/", "/Health", "/version/", "/nonexistent"], ∀ method host,
        host = none ∨ host = some "example.com" →
        requestListener toASCII version { method := method, url := some t, host := host } g
          = some (notFoundResponse, g)) ∧
      ∀ (req2 : IncomingMessage) (g2 g3 : RandomSource) (res : ServerResponse),
        requestListener toASCII version req2 g2 = some (res, g3) → res.statusCode = 200 →
        requestPathname toASCII req2 = some "/" ∨
          requestPathname toASCII req2 = some "/version" ∨
          requestPathname toASCII req2 = some "/health" := by
  refine ⟨?_, rfl, rfl, ?_, ?_⟩
  · rw [requestListener_of_pathname hp, if_neg (by simp [h.1, h.2.1]), if_neg h.2.2]
    rfl
  · intro t ht method host hh
    simp only [List.mem_cons, List.mem_singleton, List.not_mem_nil, or_false] at ht
    rcases hh with rfl | rfl <;> rcases ht with rfl | rfl | rfl | rfl <;> rfl
  · intro req2 g2 g3 res hres hstatus
    cases hq : requestPathname toASCII req2 with
    | none =>
      rw [(requestListener_eq_none_iff toASCII version req2 g2).mpr hq] at hres
      simp at hres
    | some q =>
      rw [requestListener_of_pathname hq] at hres
      by_cases h1 : q = "/version" ∨ q = "/"
      · rcases h1 with rfl | rfl <;> simp
      · by_cases h2 : q = "/health"
        · subst h2; simp
        · rw [if_neg h1, if_neg h2] at hres
          simp only [Option.some.injEq, Prod.mk.injEq] at hres
          rw [← hres.1] at hstatus
          simp [notFoundResponse] at hstatus

theorem not_found_response_witness :
    requestPathname noUnicode (getRequest "/nonexistent") = some "/nonexistent" ∧
    requestListener noUnicode "dev-local" (getRequest "/nonexistent") (constantSource 0)
        = some ({ statusCode := 404, headers := [("Content-Type", "text/plain")],
                  body := "Not Found\n" }, constantSource 0) :=
  ⟨by decide,
    (not_found_response noUnicode "dev-local" (getRequest "/nonexistent") (constantSource 0)
      "/nonexistent" (by decide) (by decide)).1⟩

/-! ## The claims about the random phrase -/

/-- C4: for a draw `r` in `[0, 1)` the index `floor(r * 4)` lies in `{0, 1, 2, 3}`, the
lookup in `PHRASES` finds one of the four strings, and every 200 response made
with that draw carries it as its `message`. -/
theorem randomPhrase_index_in_range (r : ℚ) (h0 : 0 ≤ r) (h1 : r < 1) :
    0 ≤ ⌊r * (PHRASES.length : ℚ)⌋ ∧ ⌊r * (PHRASES.length : ℚ)⌋ < 4 ∧
    ∃ m, randomPhraseAt r = some m ∧
      m ∈ ["I Love Sabich", "Kama Lasim Bapita?", "Ein al falafel", "And Also Tchina!"] ∧
      ∀ (toASCII : List Nat → Option Str) (version : String) (req : IncomingMessage)
        (g g2 : RandomSource) (res : ServerResponse),
        g.next.1 = r → requestListener toASCII version req g = some (res, g2) →
        res.statusCode = 200 →
        (jsonDecode res.body).bind (List.lookup "message") = some m := by
  have hlen : (PHRASES.length : ℚ) = 4 := by simp [PHRASES]
  rw [hlen]
  obtain ⟨hf0, hf4⟩ := floor_draw_lt_four r h0 h1
  obtain ⟨m, hm, hmem⟩ := randomPhraseAt_mem r h0 h1
  refine ⟨hf0, hf4, m, hm, hmem, ?_⟩
  intro toASCII version req g g2 res hg hres hstatus
  cases hq : requestPathname toASCII req with
  | none =>
    rw [(requestListener_eq_none_iff toASCII version req g).mpr hq] at hres
    simp at hres
  | some q =>
    rw [requestListener_of_pathname hq, hg, hm] at hres
    split_ifs at hres with h1 h2
    · simp only [Option.some.injEq, Prod.mk.injEq] at hres
      rw [← hres.1]
      simp [jsonResponse, jsonDecode_jsonStringify, definedProps, List.lookup]
    · simp only [Option.some.injEq, Prod.mk.injEq] at hres
      rw [← hres.1]
      simp [jsonResponse, jsonDecode_jsonStringify, definedProps, List.lookup]
    · simp only [Option.some.injEq, Prod.mk.injEq] at hres
      rw [← hres.1] at hstatus
      simp [notFoundResponse] at hstatus

theorem randomPhrase_index_in_range_witness :
    (0 : ℚ) ≤ 7 / 8 ∧ (7 / 8 : ℚ) < 1 ∧
    0 ≤ ⌊(7 / 8 : ℚ) * (PHRASES.length : ℚ)⌋ ∧ ⌊(7 / 8 : ℚ) * (PHRASES.length : ℚ)⌋ < 4 :=
  ⟨by norm_num, by norm_num,
    (randomPhrase_index_in_range (7 / 8) (by norm_num) (by norm_num)).1,
    (randomPhrase_index_in_range (7 / 8) (by norm_num) (by norm_num)).2.1⟩

theorem PHRASES_getElem?_inj : ∀ i j : Fin 4, PHRASES[i.val]? = PHRASES[j.val]? → i = j := by
  decide

/-- C8: for a draw `r` in `[0, 1)` and an index `i` below 4, phrase `i` is selected
exactly when `i/4 ≤ r < (i+1)/4`; the four intervals have length `1/4`; every
phrase is selected by some draw; two draws give different messages. -/
theorem randomPhrase_uniform (r : ℚ) (i : Nat) (h0 : 0 ≤ r) (h1 : r < 1) (hi : i < 4) :
    (randomPhraseAt r = PHRASES[i]? ↔ (i : ℚ) / 4 ≤ r ∧ r < ((i : ℚ) + 1) / 4) ∧
    ((i : ℚ) + 1) / 4 - (i : ℚ) / 4 = 1 / 4 ∧
    (∃ s : ℚ, 0 ≤ s ∧ s < 1 ∧ randomPhraseAt s = PHRASES[i]? ∧ (PHRASES[i]?).isSome) ∧
    ∃ s t : ℚ, 0 ≤ s ∧ s < 1 ∧ 0 ≤ t ∧ t < 1 ∧ randomPhraseAt s ≠ randomPhraseAt t := by
  have iff_of : ∀ s : ℚ, 0 ≤ s → s < 1 →
      (randomPhraseAt s = PHRASES[i]? ↔ (i : ℚ) / 4 ≤ s ∧ s < ((i : ℚ) + 1) / 4) := by
    intro s hs0 hs1
    obtain ⟨j, hj, hfloor, hsel⟩ := randomPhraseAt_eq_getElem s hs0 hs1
    rw [hsel]
    have hji : PHRASES[j]? = PHRASES[i]? ↔ j = i := by
      constructor
      · intro h
        have := PHRASES_getElem?_inj ⟨j, hj⟩ ⟨i, hi⟩ h
        simpa using this
      · rintro rfl; rfl
    rw [hji]
    have hfl : ⌊s * 4⌋ = (i : Int) ↔ (i : ℚ) / 4 ≤ s ∧ s < ((i : ℚ) + 1) / 4 := by
      rw [Int.floor_eq_iff]
      push_cast
      constructor
      · rintro ⟨a, b⟩; constructor <;> linarith
      · rintro ⟨a, b⟩; constructor <;> linarith
    rw [← hfl, hfloor]
    exact ⟨fun h => by rw [h], fun h => by exact_mod_cast h⟩
  have hq0 : (0 : ℚ) ≤ (i : ℚ) / 4 := by positivity
  have hq1 : (i : ℚ) / 4 < 1 := by
    have : (i : ℚ) < 4 := by exact_mod_cast hi
    linarith
  refine ⟨iff_of r h0 h1, by ring, ⟨(i : ℚ) / 4, hq0, hq1, ?_, ?_⟩, ?_⟩
  · exact (iff_of _ hq0 hq1).mpr ⟨le_refl _, by linarith⟩
  · have : i < PHRASES.length := by simpa [PHRASES] using hi
    simp [List.getElem?_eq_getElem this]
  · refine ⟨0, 1 / 4, le_refl _, by norm_num, by norm_num, by norm_num, ?_⟩
    obtain ⟨j, hj, hfloor, hsel⟩ := randomPhraseAt_eq_getElem 0 (le_refl _) (by norm_num)
    obtain ⟨k, hk, hfloork, hselk⟩ := randomPhraseAt_eq_getElem (1 / 4) (by norm_num) (by norm_num)
    have hj0 : j = 0 := by
      have : ⌊(0 : ℚ) * 4⌋ = 0 := by norm_num
      omega
    have hk1 : k = 1 := by
      have : ⌊(1 / 4 : ℚ) * 4⌋ = 1 := by norm_num
      omega
    subst hj0 hk1
    rw [hsel, hselk]
    decide

theorem randomPhrase_uniform_witness :
    (0 : ℚ) ≤ 5 / 8 ∧ (5 / 8 : ℚ) < 1 ∧ 2 < 4 ∧
    (randomPhraseAt (5 / 8) = PHRASES[2]? ↔
      ((2 : Nat) : ℚ) / 4 ≤ 5 / 8 ∧ (5 / 8 : ℚ) < (((2 : Nat) : ℚ) + 1) / 4) :=
  ⟨by norm_num, by norm_num, by norm_num,
    (randomPhrase_uniform (5 / 8) 2 (by norm_num) (by norm_num) (by norm_num)).1⟩

/-! ## The claims about the version label and the method -/

/-- Every 200 response of the handler carries the version label it was given. -/
theorem requestListener_version_field (toASCII : List Nat → Option Str) (version : String)
    (req : IncomingMessage) (g g2 : RandomSource) (res : ServerResponse)
    (hres : requestListener toASCII version req g = some (res, g2))
    (hstatus : res.statusCode = 200) :
    (jsonDecode res.body).bind (List.lookup "version") = some version := by
  cases hq : requestPathname toASCII req with
  | none =>
    rw [(requestListener_eq_none_iff toASCII version req g).mpr hq] at hres
    simp at hres
  | some q =>
    rw [requestListener_of_pathname hq] at hres
    split_ifs at hres with h1 h2
    · simp only [Option.some.injEq, Prod.mk.injEq] at hres
      rw [← hres.1]
      cases randomPhraseAt g.next.1 <;>
        simp [jsonResponse, jsonDecode_jsonStringify, definedProps, List.lookup]
    · simp only [Option.some.injEq, Prod.mk.injEq] at hres
      rw [← hres.1]
      cases randomPhraseAt g.next.1 <;>
        simp [jsonResponse, jsonDecode_jsonStringify, definedProps, List.lookup]
    · simp only [Option.some.injEq, Prod.mk.injEq] at hres
      rw [← hres.1] at hstatus
      simp [notFoundResponse] at hstatus

/-- Every 200 response of the process carries the version label read at startup. -/
theorem serve_version_field (toASCII : List Nat → Option Str) (version : String)
    (reqs : List IncomingMessage) :
    ∀ (g : RandomSource), ∀ res ∈ serve toASCII version g reqs, res.statusCode = 200 →
      (jsonDecode res.body).bind (List.lookup "version") = some version := by
  induction reqs with
  | nil => intro g res h; simp [serve] at h
  | cons req rest ih =>
    intro g res h hstatus
    unfold serve at h
    cases hr : requestListener toASCII version req g with
    | none => rw [hr] at h; simp at h
    | some pair =>
      obtain ⟨res1, g1⟩ := pair
      rw [hr] at h
      simp only [List.mem_cons] at h
      rcases h with rfl | h
      · exact requestListener_version_field toASCII version req g g1 res hr hstatus
      · exact ih g1 res h hstatus

/-- C7, as stated, fails: with `VERSION` set to the empty string the `version`
field of the response to `GET /` is `dev-local`, not the empty string. -/
theorem empty_VERSION_not_echoed :
    ¬ (∀ (env : String → Option String) (v : String), env "VERSION" = some v →
        ∀ res ∈ runServer noUnicode env (constantSource 0) [getRequest "/"],
          res.statusCode = 200 →
          (jsonDecode res.body).bind (List.lookup "version") = some v) := by
  intro h
  have hreq : requestListener noUnicode (VERSION emptyVersionEnv) (getRequest "/")
      (constantSource 0)
      = some (jsonResponse [("message", randomPhraseAt (constantSource 0).next.1),
          ("version", some (VERSION emptyVersionEnv))], (constantSource 0).next.2) := by
    rw [requestListener_of_pathname (p := "/") (by decide)]
    simp
  have hmem : jsonResponse [("message", randomPhraseAt (constantSource 0).next.1),
      ("version", some (VERSION emptyVersionEnv))]
      ∈ runServer noUnicode emptyVersionEnv (constantSource 0) [getRequest "/"] := by
    simp [runServer, serve, hreq]
  have h1 := h emptyVersionEnv "" rfl _ hmem rfl
  have h2 := serve_version_field noUnicode (VERSION emptyVersionEnv) [getRequest "/"]
    (constantSource 0) _ hmem rfl
  rw [h1] at h2
  exact absurd h2 (by decide)

/-- C7, amended: when `VERSION` is set to a non-empty value, every 200 response of
the process carries that value as `version`; when it is unset or empty, every 200
response carries `dev-local`; in both cases the same value in every response. -/
theorem version_field_echoes_VERSION (toASCII : List Nat → Option Str)
    (env : String → Option String) (g : RandomSource) (reqs : List IncomingMessage)
    (res : ServerResponse) (hres : res ∈ runServer toASCII env g reqs)
    (hstatus : res.statusCode = 200) :
    (jsonDecode res.body).bind (List.lookup "version") = some (VERSION env) ∧
    (∀ v, env "VERSION" = some v → v ≠ "" → VERSION env = v) ∧
    (env "VERSION" = none ∨ env "VERSION" = some "" → VERSION env = "dev-local") := by
  refine ⟨serve_version_field toASCII (VERSION env) reqs g res hres hstatus, ?_, ?_⟩
  · intro v hv hne
    simp [VERSION, orDefault, hv, hne]
  · rintro (h | h) <;> simp [VERSION, orDefault, h]

theorem version_field_echoes_VERSION_witness :
    jsonResponse [("message", some "I Love Sabich"), ("version", some "1.2.3")]
      ∈ runServer noUnicode scenarioEnv (constantSource 0) [getRequest "/version"] ∧
    (jsonDecode (jsonResponse [("message", some "I Love Sabich"),
        ("version", some "1.2.3")]).body).bind (List.lookup "version") = some "1.2.3" := by
  have hdraw : randomPhraseAt (constantSource 0).next.1 = some "I Love Sabich" := by
    simp [constantSource, RandomSource.next, randomPhraseAt, PHRASES]
  have hv : VERSION scenarioEnv = "1.2.3" := by decide
  have hreq : requestListener noUnicode (VERSION scenarioEnv) (getRequest "/version")
      (constantSource 0)
      = some (jsonResponse [("message", some "I Love Sabich"), ("version", some "1.2.3")],
          (constantSource 0).next.2) := by
    rw [requestListener_of_pathname (p := "/version") (by decide), hdraw, hv]
    simp
  have hmem : jsonResponse [("message", some "I Love Sabich"), ("version", some "1.2.3")]
      ∈ runServer noUnicode scenarioEnv (constantSource 0) [getRequest "/version"] := by
    simp [runServer, serve, hreq]
  exact ⟨hmem, hv ▸ (version_field_echoes_VERSION noUnicode scenarioEnv (constantSource 0)
    [getRequest "/version"] _ hmem rfl).1⟩

/-- C9: two requests with the same target and `Host` header, whatever their
methods, handled with the same version label and the same draw, get the same
status, headers and body, whatever state earlier requests left the random source
in (the only thing a request can change). -/
theorem method_ignored_and_stateless (toASCII : List Nat → Option Str) (version : String)
    (req1 req2 : IncomingMessage) (g1 g2 : RandomSource)
    (hurl : req1.url = req2.url) (hhost : req1.host = req2.host)
    (hdraw : g1.next.1 = g2.next.1) :
    (requestListener toASCII version req1 g1).map Prod.fst
      = (requestListener toASCII version req2 g2).map Prod.fst := by
  have hp : requestPathname toASCII req1 = requestPathname toASCII req2 := by
    simp only [requestPathname, requestUrl, hurl, hhost]
  cases hq : requestPathname toASCII req2 with
  | none =>
    rw [(requestListener_eq_none_iff toASCII version req2 g2).mpr hq,
      (requestListener_eq_none_iff toASCII version req1 g1).mpr (hp.trans hq)]
  | some q =>
    rw [requestListener_of_pathname hq, requestListener_of_pathname (hp.trans hq), hdraw]
    split_ifs <;> rfl

theorem method_ignored_and_stateless_witness :
    (requestListener noUnicode "dev-local"
        { method := "GET", url := some "/health", host := some "example.com" }
        (constantSource (1 / 4))).map Prod.fst
      = (requestListener noUnicode "dev-local"
        { method := "DELETE", url := some "/health", host := some "example.com" }
        { values := fun n => if n = 7 then 1 / 4 else 0, calls := 7 }).map Prod.fst :=
  method_ignored_and_stateless noUnicode "dev-local" _ _ _ _ rfl rfl
    (by simp [constantSource, RandomSource.next])

/-! ## The claims about URL parsing -/

/-- C5 fails on the code: a request whose `Host` header is `[` (or whose target is
`//[`) makes `new URL` throw, so the handler writes no response and the process
ends without serving the requests that follow. -/
theorem malformed_host_header_throws (toASCII : List Nat → Option Str) (version method : String)
    (g : RandomSource) (later : List IncomingMessage) :
    requestListener toASCII version { method := method, url := some "/", host := some "[" } g
      = none ∧
    requestListener toASCII version { method := method, url := some "//[", host := none } g
      = none ∧
    serve toASCII version g ({ method := method, url := some "/", host := some "[" } :: later)
      = [] := by
  have h1 : requestListener toASCII version
      { method := method, url := some "/", host := some "[" } g = none := rfl
  exact ⟨h1, rfl, by rw [serve, h1]⟩

/-- C10: the response depends on the request only through the pathname that
`new URL` computes: targets that the parser normalizes to a route (dot segments, a
backslash for the slash, an absolute-form target, an empty or missing target) get
the 200 response of that route, and a percent-encoded spelling of a route gets
404. -/
theorem routing_uses_normalized_pathname (toASCII : List Nat → Option Str) (version : String)
    (req1 req2 : IncomingMessage) (g : RandomSource)
    (h : requestPathname toASCII req1 = requestPathname toASCII req2) :
    requestListener toASCII version req1 g = requestListener toASCII version req2 g ∧
    (∀ method,
      requestListener toASCII version
          { method := method, url := some "/a/../health", host := none } g
        = some (jsonResponse [("status", some "ok"), ("message", randomPhraseAt g.next.1),
            ("version", some version)], g.next.2) ∧
      requestListener toASCII version
          { method := method, url := some "\\health", host := none } g
        = some (jsonResponse [("status", some "ok"), ("message", randomPhraseAt g.next.1),
            ("version", some version)], g.next.2) ∧
      requestListener toASCII version
          { method := method, url := some "http://other.example/health", host := none } g
        = some (jsonResponse [("status", some "ok"), ("message", randomPhraseAt g.next.1),
            ("version", some version)], g.next.2) ∧
      requestListener toASCII version
          { method := method, url := some "/./version", host := none } g
        = some (jsonResponse [("message", randomPhraseAt g.next.1),
            ("version", some version)], g.next.2) ∧
      requestListener toASCII version { method := method, url := some "", host := none } g
        = some (jsonResponse [("message", randomPhraseAt g.next.1),
            ("version", some version)], g.next.2) ∧
      requestListener toASCII version { method := method, url := none, host := none } g
        = some (jsonResponse [("message", randomPhraseAt g.next.1),
            ("version", some version)], g.next.2) ∧
      requestPathname toASCII { method := method, url := some "/%68ealth", host := none }
        = some "/%68ealth" ∧
      requestListener toASCII version
          { method := method, url := some "/%68ealth", host := none } g
        = some (notFoundResponse, g)) := by
  refine ⟨requestListener_congr_pathname toASCII version req1 req2 g h, ?_⟩
  intro method
  exact ⟨rfl, rfl, rfl, rfl, rfl, rfl, rfl, rfl⟩

theorem routing_uses_normalized_pathname_witness :
    requestPathname noUnicode (getRequest "/a/../health")
        = requestPathname noUnicode (getRequest "/health") ∧
    requestListener noUnicode "dev-local" (getRequest "/a/../health") (constantSource 0)
      = requestListener noUnicode "dev-local" (getRequest "/health") (constantSource 0) :=
  ⟨by decide,
    (routing_uses_normalized_pathname noUnicode "dev-local" (getRequest "/a/../health")
      (getRequest "/health") (constantSource 0) (by decide)).1⟩

/-! ## Theorems: the query and the fragment do not reach the path -/

theorem cut_cons_question (cs : Str) : cut ('?' :: cs) = [] := rfl

theorem cut_cons_hash (cs : Str) : cut ('#' :: cs) = [] := rfl

theorem cut_cons_of_ne {c : Char} (h1 : c ≠ '?') (h2 : c ≠ '#') (cs : Str) :
    cut (c :: cs) = c :: cut cs := by
  simp [cut, List.takeWhile_cons, h1, h2]

theorem cut_append_cut (a b : Str) : cut (a ++ cut b) = cut (a ++ b) := by
  induction a with
  | nil =>
    induction b with
    | nil => rfl
    | cons c cs ih =>
      by_cases h1 : c = '?'
      · subst h1; rfl
      · by_cases h2 : c = '#'
        · subst h2; rfl
        · simp only [List.nil_append] at ih ⊢
          rw [cut_cons_of_ne h1 h2, cut_cons_of_ne h1 h2, ih]
  | cons c cs ih =>
    by_cases h1 : c = '?'
    · subst h1; rfl
    · by_cases h2 : c = '#'
      · subst h2; rfl
      · simp only [List.cons_append]
        rw [cut_cons_of_ne h1 h2, cut_cons_of_ne h1 h2, ih]

theorem cut_append_delimiter (a : Str) (t : Char) (r : Str) (ht : t = '?' ∨ t = '#') :
    cut (a ++ t :: r) = cut a := by
  have h : cut (t :: r) = [] := by rcases ht with rfl | rfl <;> rfl
  rw [← cut_append_cut, h, List.append_nil]

theorem pathOf_bind_congr (x : Option Url) (f k : Url → Option Url)
    (h : ∀ u, pathOf (f u) = pathOf (k u)) : pathOf (x.bind f) = pathOf (x.bind k) := by
  cases x with
  | none => rfl
  | some u => exact h u

theorem fragmentState_path (url : Url) (s : Str) :
    pathOf (fragmentState url s) = some url.path := by
  induction s generalizing url with
  | nil => rfl
  | cons c cs ih => rw [fragmentState, ih]

theorem queryState_path (url : Url) (buffer s : Str) :
    pathOf (queryState url buffer s) = some url.path := by
  induction s generalizing url buffer with
  | nil => rfl
  | cons c cs ih =>
    rw [queryState]
    split_ifs
    · rw [fragmentState_path]; rfl
    · exact ih url _

theorem pathState_cut (url : Url) (buffer s : Str) :
    pathOf (pathState url buffer s) = pathOf (pathState url buffer (cut s)) := by
  induction s generalizing url buffer with
  | nil => rfl
  | cons c cs ih =>
    by_cases h1 : c = '?'
    · subst h1
      simp [cut_cons_question, pathState, queryState_path]
      rfl
    · by_cases h2 : c = '#'
      · subst h2
        simp [cut_cons_hash, pathState, fragmentState_path]
        rfl
      · rw [cut_cons_of_ne h1 h2, pathState, pathState]
        split_ifs
        · exact ih _ _
        · exact ih _ _

theorem cannotBeABaseURLPathState_cut (url : Url) (s : Str) :
    pathOf (cannotBeABaseURLPathState url s) = pathOf (cannotBeABaseURLPathState url (cut s)) := by
  induction s generalizing url with
  | nil => rfl
  | cons c cs ih =>
    by_cases h1 : c = '?'
    · subst h1
      simp [cut_cons_question, cannotBeABaseURLPathState, queryState_path]
      rfl
    · by_cases h2 : c = '#'
      · subst h2
        simp [cut_cons_hash, cannotBeABaseURLPathState, fragmentState_path]
        rfl
      · rw [cut_cons_of_ne h1 h2, cannotBeABaseURLPathState, cannotBeABaseURLPathState,
          if_neg h1, if_neg h2, if_neg h1, if_neg h2]
        split
        · exact ih _
        · exact ih _

theorem pathStartState_cut (url : Url) (s : Str) :
    pathOf (pathStartState url s) = pathOf (pathStartState url (cut s)) := by
  cases s with
  | nil => rfl
  | cons c cs =>
    by_cases h1 : c = '?'
    · subst h1
      rw [cut_cons_question]
      unfold pathStartState
      split_ifs
      · simpa [cut_cons_question] using pathState_cut url [] ('?' :: cs)
      · simp [queryState_path]; rfl
    · by_cases h2 : c = '#'
      · subst h2
        rw [cut_cons_hash]
        unfold pathStartState
        split_ifs
        · simpa [cut_cons_hash] using pathState_cut url [] ('#' :: cs)
        · simp [fragmentState_path]; rfl
      · rw [cut_cons_of_ne h1 h2]
        unfold pathStartState
        split_ifs
        · simp only []
          split_ifs
          · exact pathState_cut _ _ _
          · simpa [cut_cons_of_ne h1 h2] using pathState_cut url [] (c :: cs)
        · simp only [if_neg h1, if_neg h2]
          split_ifs
          · exact pathState_cut _ _ _
          · simpa [cut_cons_of_ne h1 h2] using pathState_cut url [] (c :: cs)

theorem pathStartState_cut_cons (url : Url) {c : Char} (h1 : c ≠ '?') (h2 : c ≠ '#') (cs : Str) :
    pathOf (pathStartState url (c :: cs)) = pathOf (pathStartState url (c :: cut cs)) := by
  rw [pathStartState_cut, cut_cons_of_ne h1 h2]

theorem pathStartState_delimiter (url : Url) {c : Char} (h : c = '?' ∨ c = '#') (cs : Str) :
    pathOf (pathStartState url (c :: cs)) = pathOf (pathStartState url []) := by
  rw [pathStartState_cut]
  rcases h with rfl | rfl <;> rfl

theorem endsAuthority_delimiter (url : Url) {c : Char} (h : c = '?' ∨ c = '#') :
    endsAuthority url c = true := by
  rcases h with rfl | rfl <;> simp [endsAuthority]

theorem isAsciiDigit_delimiter {c : Char} (h : c = '?' ∨ c = '#') : isAsciiDigit c = false := by
  rcases h with rfl | rfl <;> rfl

theorem portState_cut (url : Url) (buffer s : Str) :
    pathOf (portState url buffer s) = pathOf (portState url buffer (cut s)) := by
  induction s generalizing buffer with
  | nil => rfl
  | cons c cs ih =>
    by_cases h : c = '?' ∨ c = '#'
    · have hc : cut (c :: cs) = [] := by rcases h with rfl | rfl <;> rfl
      rw [hc, portState, portState, if_neg (by simp [isAsciiDigit_delimiter h]),
        if_pos (endsAuthority_delimiter url h)]
      exact pathOf_bind_congr _ _ _ (fun u => pathStartState_delimiter u h cs)
    · have h1 : c ≠ '?' := fun e => h (Or.inl e)
      have h2 : c ≠ '#' := fun e => h (Or.inr e)
      rw [cut_cons_of_ne h1 h2, portState, portState]
      split_ifs
      · exact ih _
      · exact pathOf_bind_congr _ _ _ (fun u => pathStartState_cut_cons u h1 h2 cs)
      · rfl

theorem hostState_cut (toASCII : List Nat → Option Str) (url : Url) (buffer : Str)
    (insideBrackets : Bool) (s : Str) :
    pathOf (hostState toASCII url buffer insideBrackets s)
      = pathOf (hostState toASCII url buffer insideBrackets (cut s)) := by
  induction s generalizing buffer insideBrackets with
  | nil => rfl
  | cons c cs ih =>
    by_cases h : c = '?' ∨ c = '#'
    · have hc : cut (c :: cs) = [] := by rcases h with rfl | rfl <;> rfl
      have hcolon : c ≠ ':' := by rcases h with rfl | rfl <;> decide
      rw [hc, hostState, hostState, if_neg (by simp [hcolon]),
        if_pos (endsAuthority_delimiter url h)]
      exact pathOf_bind_congr _ _ _ (fun u => pathStartState_delimiter u h cs)
    · have h1 : c ≠ '?' := fun e => h (Or.inl e)
      have h2 : c ≠ '#' := fun e => h (Or.inr e)
      rw [cut_cons_of_ne h1 h2, hostState, hostState]
      split_ifs <;>
        first
        | rfl
        | exact ih _ _
        | exact pathOf_bind_congr _ _ _ (fun u => portState_cut u [] cs)
        | exact pathOf_bind_congr _ _ _ (fun u => pathStartState_cut_cons u h1 h2 cs)

theorem cut_append_cons_cut (a : Str) (c : Char) (cs : Str) :
    cut (a ++ c :: cut cs) = cut (a ++ c :: cs) := by
  have h1 : a ++ c :: cut cs = (a ++ [c]) ++ cut cs := by simp
  have h2 : a ++ c :: cs = (a ++ [c]) ++ cs := by simp
  rw [h1, h2, cut_append_cut]

theorem hostState_append_cut (toASCII : List Nat → Option Str) (url : Url) (buffer : Str)
    (insideBrackets : Bool) (a : Str) (c : Char) (cs : Str) :
    pathOf (hostState toASCII url buffer insideBrackets (a ++ c :: cs))
      = pathOf (hostState toASCII url buffer insideBrackets (a ++ c :: cut cs)) := by
  rw [hostState_cut, hostState_cut toASCII url buffer insideBrackets (a ++ c :: cut cs),
    cut_append_cons_cut]

theorem authorityState_cut (toASCII : List Nat → Option Str) (url : Url) (buffer : Str)
    (atSignSeen passwordTokenSeen : Bool) (s : Str) :
    pathOf (authorityState toASCII url buffer atSignSeen passwordTokenSeen s)
      = pathOf (authorityState toASCII url buffer atSignSeen passwordTokenSeen (cut s)) := by
  induction s generalizing url buffer atSignSeen passwordTokenSeen with
  | nil => rfl
  | cons c cs ih =>
    by_cases h : c = '?' ∨ c = '#'
    · have hc : cut (c :: cs) = [] := by rcases h with rfl | rfl <;> rfl
      have hat : c ≠ '@' := by rcases h with rfl | rfl <;> decide
      rw [hc, authorityState, authorityState, if_neg hat,
        if_pos (endsAuthority_delimiter url h)]
      split_ifs
      · rfl
      · rw [hostState_cut, cut_append_delimiter _ _ _ h, ← hostState_cut]
    · have h1 : c ≠ '?' := fun e => h (Or.inl e)
      have h2 : c ≠ '#' := fun e => h (Or.inr e)
      rw [cut_cons_of_ne h1 h2, authorityState, authorityState]
      split_ifs <;>
        first
        | rfl
        | exact ih _ _ _ _
        | exact hostState_append_cut _ _ _ _ _ _ _

theorem specialAuthorityIgnoreSlashesState_cut (toASCII : List Nat → Option Str) (url : Url)
    (s : Str) :
    pathOf (specialAuthorityIgnoreSlashesState toASCII url s)
      = pathOf (specialAuthorityIgnoreSlashesState toASCII url (cut s)) := by
  induction s with
  | nil => rfl
  | cons c cs ih =>
    by_cases h : c = '?' ∨ c = '#'
    · have hc : cut (c :: cs) = [] := by rcases h with rfl | rfl <;> rfl
      have hs : ¬ (c = '/' ∨ c = '\\') := by rcases h with rfl | rfl <;> decide
      rw [specialAuthorityIgnoreSlashesState, if_neg hs, authorityState_cut, hc]
      rfl
    · have h1 : c ≠ '?' := fun e => h (Or.inl e)
      have h2 : c ≠ '#' := fun e => h (Or.inr e)
      rw [cut_cons_of_ne h1 h2, specialAuthorityIgnoreSlashesState,
        specialAuthorityIgnoreSlashesState]
      split_ifs
      · exact ih
      · rw [authorityState_cut, cut_cons_of_ne h1 h2]

theorem specialAuthoritySlashesState_eq (toASCII : List Nat → Option Str) (url : Url)
    (s : Str) :
    specialAuthoritySlashesState toASCII url s
      = specialAuthorityIgnoreSlashesState toASCII url s := by
  unfold specialAuthoritySlashesState
  split
  · split_ifs with h
    · obtain ⟨rfl, rfl⟩ := h
      simp [specialAuthorityIgnoreSlashesState]
    · rfl
  · rfl

theorem specialAuthoritySlashesState_cut (toASCII : List Nat → Option Str) (url : Url)
    (s : Str) :
    pathOf (specialAuthoritySlashesState toASCII url s)
      = pathOf (specialAuthoritySlashesState toASCII url (cut s)) := by
  rw [specialAuthoritySlashesState_eq, specialAuthoritySlashesState_eq,
    specialAuthorityIgnoreSlashesState_cut]

theorem pathOrAuthorityState_cut (toASCII : List Nat → Option Str) (url : Url) (s : Str) :
    pathOf (pathOrAuthorityState toASCII url s)
      = pathOf (pathOrAuthorityState toASCII url (cut s)) := by
  cases s with
  | nil => rfl
  | cons c cs =>
    by_cases h : c = '?' ∨ c = '#'
    · have hc : cut (c :: cs) = [] := by rcases h with rfl | rfl <;> rfl
      have hs : c ≠ '/' := by rcases h with rfl | rfl <;> decide
      rw [hc]
      simp only [pathOrAuthorityState, if_neg hs]
      rw [pathState_cut, hc]
    · have h1 : c ≠ '?' := fun e => h (Or.inl e)
      have h2 : c ≠ '#' := fun e => h (Or.inr e)
      rw [cut_cons_of_ne h1 h2]
      simp only [pathOrAuthorityState]
      split_ifs
      · exact authorityState_cut _ _ _ _ _ _
      · rw [pathState_cut, cut_cons_of_ne h1 h2]

theorem relativeSlashState_cut (toASCII : List Nat → Option Str) (url base : Url) (s : Str) :
    pathOf (relativeSlashState toASCII url base s)
      = pathOf (relativeSlashState toASCII url base (cut s)) := by
  cases s with
  | nil => rfl
  | cons c cs =>
    by_cases h : c = '?' ∨ c = '#'
    · have hc : cut (c :: cs) = [] := by rcases h with rfl | rfl <;> rfl
      have hs : c ≠ '/' := by rcases h with rfl | rfl <;> decide
      have hb : c ≠ '\\' := by rcases h with rfl | rfl <;> decide
      rw [hc]
      simp only [relativeSlashState, hs, hb, or_self, and_false, if_false]
      rw [pathState_cut, hc]
    · have h1 : c ≠ '?' := fun e => h (Or.inl e)
      have h2 : c ≠ '#' := fun e => h (Or.inr e)
      rw [cut_cons_of_ne h1 h2]
      simp only [relativeSlashState]
      split_ifs
      · exact specialAuthorityIgnoreSlashesState_cut _ _ _
      · exact authorityState_cut _ _ _ _ _ _
      · rw [pathState_cut, cut_cons_of_ne h1 h2]

theorem relativeState_cut (toASCII : List Nat → Option Str) (url base : Url) (s : Str) :
    pathOf (relativeState toASCII url base s)
      = pathOf (relativeState toASCII url base (cut s)) := by
  cases s with
  | nil => rfl
  | cons c cs =>
    by_cases h1 : c = '?'
    · subst h1
      simp [cut_cons_question, relativeState, queryState_path]
      rfl
    · by_cases h2 : c = '#'
      · subst h2
        simp [cut_cons_hash, relativeState, fragmentState_path]
        rfl
      · rw [cut_cons_of_ne h1 h2]
        simp only [relativeState, if_neg h1, if_neg h2]
        split_ifs
        · exact relativeSlashState_cut _ _ _ _
        · exact relativeSlashState_cut _ _ _ _
        · rw [pathState_cut, cut_cons_of_ne h1 h2]

theorem not_slashes_cut {s : Str} (h : ∀ cs, s ≠ '/' :: '/' :: cs) :
    ∀ x, cut s ≠ '/' :: '/' :: x := by
  intro x hx
  obtain ⟨t, ht⟩ : cut s <+: s := List.takeWhile_prefix _
  exact h (x ++ t) (by rw [← ht, hx]; rfl)

theorem specialRelativeOrAuthorityState_of_not_slashes (toASCII : List Nat → Option Str)
    (url base : Url) {s : Str} (h : ∀ cs, s ≠ '/' :: '/' :: cs) :
    specialRelativeOrAuthorityState toASCII url base s = relativeState toASCII url base s := by
  unfold specialRelativeOrAuthorityState
  split
  · split_ifs with hcd
    · obtain ⟨rfl, rfl⟩ := hcd
      exact absurd rfl (h _)
    · rfl
  · rfl

theorem specialRelativeOrAuthorityState_cut (toASCII : List Nat → Option Str) (url base : Url)
    (s : Str) :
    pathOf (specialRelativeOrAuthorityState toASCII url base s)
      = pathOf (specialRelativeOrAuthorityState toASCII url base (cut s)) := by
  by_cases hs : ∃ cs, s = '/' :: '/' :: cs
  · obtain ⟨cs, rfl⟩ := hs
    rw [cut_cons_of_ne (by decide) (by decide), cut_cons_of_ne (by decide) (by decide)]
    simp only [specialRelativeOrAuthorityState, and_self, if_true]
    exact specialAuthorityIgnoreSlashesState_cut _ _ _
  · have h : ∀ cs, s ≠ '/' :: '/' :: cs := fun cs e => hs ⟨cs, e⟩
    rw [specialRelativeOrAuthorityState_of_not_slashes toASCII url base h,
      specialRelativeOrAuthorityState_of_not_slashes toASCII url base (not_slashes_cut h)]
    exact relativeState_cut _ _ _ _

theorem fileHostState_cut (toASCII : List Nat → Option Str) (url : Url) (buffer s : Str) :
    pathOf (fileHostState toASCII url buffer s)
      = pathOf (fileHostState toASCII url buffer (cut s)) := by
  induction s generalizing buffer with
  | nil => rfl
  | cons c cs ih =>
    by_cases h : c = '?' ∨ c = '#'
    · have hc : cut (c :: cs) = [] := by rcases h with rfl | rfl <;> rfl
      have ht : c = '/' ∨ c = '\\' ∨ c = '?' ∨ c = '#' := by
        rcases h with rfl | rfl <;> simp
      rw [hc, fileHostState, fileHostState, if_pos ht]
      split_ifs
      · rw [pathState_cut, hc]
      · exact pathStartState_delimiter _ h cs
      · exact pathOf_bind_congr _ _ _ (fun u => pathStartState_delimiter u h cs)
    · have h1 : c ≠ '?' := fun e => h (Or.inl e)
      have h2 : c ≠ '#' := fun e => h (Or.inr e)
      rw [cut_cons_of_ne h1 h2, fileHostState, fileHostState]
      split_ifs
      · rw [pathState_cut, cut_cons_of_ne h1 h2]
      · exact pathStartState_cut_cons _ h1 h2 cs
      · exact pathOf_bind_congr _ _ _ (fun u => pathStartState_cut_cons u h1 h2 cs)
      · exact ih _

theorem isAsciiAlpha_delimiter {c : Char} (h : c = '?' ∨ c = '#') : isAsciiAlpha c = false := by
  rcases h with rfl | rfl <;> rfl

theorem startsWithWindowsDriveLetter_cut (s : Str) :
    startsWithWindowsDriveLetter (cut s) = startsWithWindowsDriveLetter s := by
  match s with
  | [] => rfl
  | [a] =>
    by_cases ha : a = '?' ∨ a = '#'
    · rcases ha with rfl | rfl <;> rfl
    · rw [cut_cons_of_ne (fun e => ha (Or.inl e)) (fun e => ha (Or.inr e))]
      rfl
  | a :: b :: rest =>
    by_cases ha : a = '?' ∨ a = '#'
    · have hc : cut (a :: b :: rest) = [] := by rcases ha with rfl | rfl <;> rfl
      rw [hc]
      cases rest <;>
        simp [startsWithWindowsDriveLetter, isWindowsDriveLetter, isAsciiAlpha_delimiter ha]
    · rw [cut_cons_of_ne (fun e => ha (Or.inl e)) (fun e => ha (Or.inr e))]
      by_cases hb : b = '?' ∨ b = '#'
      · have hc : cut (b :: rest) = [] := by rcases hb with rfl | rfl <;> rfl
        have hb1 : b ≠ ':' := by rcases hb with rfl | rfl <;> decide
        have hb2 : b ≠ '|' := by rcases hb with rfl | rfl <;> decide
        rw [hc]
        cases rest <;>
          simp [startsWithWindowsDriveLetter, isWindowsDriveLetter, hb1, hb2]
      · rw [cut_cons_of_ne (fun e => hb (Or.inl e)) (fun e => hb (Or.inr e))]
        match rest with
        | [] => rfl
        | c :: r =>
          by_cases hcq : c = '?' ∨ c = '#'
          · have hc : cut (c :: r) = [] := by rcases hcq with rfl | rfl <;> rfl
            rw [hc]
            rcases hcq with rfl | rfl <;> simp [startsWithWindowsDriveLetter]
          · rw [cut_cons_of_ne (fun e => hcq (Or.inl e)) (fun e => hcq (Or.inr e))]
            rfl

theorem fileSlashState_cut (toASCII : List Nat → Option Str) (url : Url) (base : Option Url)
    (s : Str) :
    pathOf (fileSlashState toASCII url base s)
      = pathOf (fileSlashState toASCII url base (cut s)) := by
  cases s with
  | nil => rfl
  | cons c cs =>
    by_cases h : c = '?' ∨ c = '#'
    · have hc : cut (c :: cs) = [] := by rcases h with rfl | rfl <;> rfl
      have hs : ¬ (c = '/' ∨ c = '\\') := by rcases h with rfl | rfl <;> decide
      have hw := startsWithWindowsDriveLetter_cut (c :: cs)
      rw [hc] at hw
      rw [hc]
      simp only [fileSlashState, if_neg hs, hw]
      rw [pathState_cut, hc]
    · have h1 : c ≠ '?' := fun e => h (Or.inl e)
      have h2 : c ≠ '#' := fun e => h (Or.inr e)
      have hw := startsWithWindowsDriveLetter_cut (c :: cs)
      rw [cut_cons_of_ne h1 h2] at hw
      rw [cut_cons_of_ne h1 h2]
      simp only [fileSlashState, hw]
      split_ifs
      · exact fileHostState_cut _ _ _ _
      · rw [pathState_cut, cut_cons_of_ne h1 h2]

theorem fileStateNoSlash_cut (url : Url) (copied : Option Url) (s : Str) :
    pathOf (fileStateNoSlash url copied s) = pathOf (fileStateNoSlash url copied (cut s)) := by
  cases copied with
  | none => exact pathState_cut _ _ _
  | some cp =>
    cases s with
    | nil => rfl
    | cons c cs =>
      by_cases h1 : c = '?'
      · subst h1
        simp [cut_cons_question, fileStateNoSlash, queryState_path]
        rfl
      · by_cases h2 : c = '#'
        · subst h2
          simp [cut_cons_hash, fileStateNoSlash, fragmentState_path]
          rfl
        · have hw := startsWithWindowsDriveLetter_cut (c :: cs)
          rw [cut_cons_of_ne h1 h2] at hw
          rw [cut_cons_of_ne h1 h2]
          simp only [fileStateNoSlash, if_neg h1, if_neg h2, hw]
          split_ifs
          · rw [pathState_cut, cut_cons_of_ne h1 h2]
          · rw [pathState_cut, cut_cons_of_ne h1 h2]

theorem fileState_cut (toASCII : List Nat → Option Str) (url : Url) (base : Option Url)
    (s : Str) :
    pathOf (fileState toASCII url base s) = pathOf (fileState toASCII url base (cut s)) := by
  cases s with
  | nil => rfl
  | cons c cs =>
    by_cases h : c = '?' ∨ c = '#'
    · have hc : cut (c :: cs) = [] := by rcases h with rfl | rfl <;> rfl
      have hs : ¬ (c = '/' ∨ c = '\\') := by rcases h with rfl | rfl <;> decide
      rw [hc]
      simp only [fileState, if_neg hs]
      rw [fileStateNoSlash_cut, hc]
    · have h1 : c ≠ '?' := fun e => h (Or.inl e)
      have h2 : c ≠ '#' := fun e => h (Or.inr e)
      rw [cut_cons_of_ne h1 h2]
      simp only [fileState]
      split_ifs
      · exact fileSlashState_cut _ _ _ _
      · rw [fileStateNoSlash_cut, cut_cons_of_ne h1 h2]

theorem noSchemeState_cut (toASCII : List Nat → Option Str) (base : Option Url)
    (hbase : ∀ b, base = some b → b.hasTextPath = false) (s : Str) :
    pathOf (noSchemeState toASCII base s) = pathOf (noSchemeState toASCII base (cut s)) := by
  cases base with
  | none => rfl
  | some b =>
    have hb := hbase b rfl
    simp only [noSchemeState, hb, Bool.false_eq_true, if_false]
    split_ifs
    · exact relativeState_cut _ _ _ _
    · exact fileState_cut _ _ _ _

theorem afterScheme_cut (toASCII : List Nat → Option Str) (base : Option Url) (scheme s : Str) :
    pathOf (afterScheme toASCII base scheme s) = pathOf (afterScheme toASCII base scheme (cut s)) := by
  unfold afterScheme
  simp only []
  split_ifs
  · exact fileState_cut _ _ _ _
  · cases base with
    | none => exact specialAuthoritySlashesState_cut _ _ _
    | some b =>
      simp only []
      split_ifs
      · exact specialRelativeOrAuthorityState_cut _ _ _ _
      · exact specialAuthoritySlashesState_cut _ _ _
  · cases s with
    | nil => rfl
    | cons c cs =>
      by_cases h : c = '?' ∨ c = '#'
      · have hc : cut (c :: cs) = [] := by rcases h with rfl | rfl <;> rfl
        have hs : c ≠ '/' := by rcases h with rfl | rfl <;> decide
        rw [hc]
        simp only [if_neg hs]
        rw [cannotBeABaseURLPathState_cut, hc]
      · have h1 : c ≠ '?' := fun e => h (Or.inl e)
        have h2 : c ≠ '#' := fun e => h (Or.inr e)
        rw [cut_cons_of_ne h1 h2]
        simp only []
        split_ifs
        · exact pathOrAuthorityState_cut _ _ _
        · rw [cannotBeABaseURLPathState_cut, cut_cons_of_ne h1 h2]

theorem schemeState_cut (toASCII : List Nat → Option Str) (base : Option Url)
    (whole whole2 : Str)
    (hwhole : pathOf (noSchemeState toASCII base whole)
      = pathOf (noSchemeState toASCII base whole2))
    (buffer s : Str) :
    pathOf (schemeState toASCII base whole buffer s)
      = pathOf (schemeState toASCII base whole2 buffer (cut s)) := by
  induction s generalizing buffer with
  | nil => exact hwhole
  | cons c cs ih =>
    by_cases h : c = '?' ∨ c = '#'
    · have hc : cut (c :: cs) = [] := by rcases h with rfl | rfl <;> rfl
      have hn : ¬ (isAsciiAlphanumeric c = true ∨ c = '+' ∨ c = '-' ∨ c = '.') := by
        rcases h with rfl | rfl <;> decide
      have hcolon : c ≠ ':' := by rcases h with rfl | rfl <;> decide
      rw [hc, schemeState, schemeState, if_neg hn, if_neg hcolon]
      exact hwhole
    · have h1 : c ≠ '?' := fun e => h (Or.inl e)
      have h2 : c ≠ '#' := fun e => h (Or.inr e)
      rw [cut_cons_of_ne h1 h2, schemeState, schemeState]
      split_ifs
      · exact ih _
      · exact afterScheme_cut _ _ _ _
      · exact hwhole

theorem schemeStartState_cut (toASCII : List Nat → Option Str) (base : Option Url)
    (hbase : ∀ b, base = some b → b.hasTextPath = false) (s : Str) :
    pathOf (schemeStartState toASCII base s)
      = pathOf (schemeStartState toASCII base (cut s)) := by
  cases s with
  | nil => rfl
  | cons c cs =>
    by_cases h : c = '?' ∨ c = '#'
    · have hc : cut (c :: cs) = [] := by rcases h with rfl | rfl <;> rfl
      rw [hc]
      simp only [schemeStartState, isAsciiAlpha_delimiter h, Bool.false_eq_true, if_false]
      rw [noSchemeState_cut toASCII base hbase, hc]
    · have h1 : c ≠ '?' := fun e => h (Or.inl e)
      have h2 : c ≠ '#' := fun e => h (Or.inr e)
      have hw : pathOf (noSchemeState toASCII base (c :: cs))
          = pathOf (noSchemeState toASCII base (c :: cut cs)) := by
        rw [noSchemeState_cut toASCII base hbase, cut_cons_of_ne h1 h2]
      rw [cut_cons_of_ne h1 h2]
      simp only [schemeStartState]
      split_ifs
      · exact schemeState_cut _ _ _ _ hw _ _
      · exact hw

/-! ## Theorems: the base URL of the handler has a list of segments for a path -/

theorem appendSegment_hasTextPath (url : Url) (seg : Str) :
    (appendSegment url seg).hasTextPath = url.hasTextPath := by
  unfold appendSegment Url.hasTextPath
  cases h : url.path <;> simp [h]

theorem shortenPath_hasTextPath (url : Url) :
    (shortenPath url).hasTextPath = url.hasTextPath := by
  unfold shortenPath
  cases h : url.path with
  | text s => rfl
  | segments l =>
    simp only []
    split
    · split_ifs
      · rfl
      · simp [Url.hasTextPath, h]
    · simp [Url.hasTextPath, h]

theorem endSegment_hasTextPath (url : Url) (buffer : Str) (slash : Bool) :
    (endSegment url buffer slash).hasTextPath = url.hasTextPath := by
  unfold endSegment
  split_ifs <;>
    first
    | rfl
    | exact shortenPath_hasTextPath _
    | exact appendSegment_hasTextPath _ _
    | exact (appendSegment_hasTextPath _ _).trans (shortenPath_hasTextPath _)
    | (split <;> (try split_ifs) <;> exact appendSegment_hasTextPath _ _)

theorem hasTextPath_of_pathOf {res : Option Url} {u : Url} (hu : u.hasTextPath = false)
    (h : pathOf res = some u.path) : ∀ r, res = some r → r.hasTextPath = false := by
  intro r hr
  subst hr
  simp only [pathOf, Option.map_some', Option.some.injEq] at h
  unfold Url.hasTextPath at hu ⊢
  rw [h]
  exact hu

theorem pathState_hasTextPath (url : Url) (buffer s : Str) (hu : url.hasTextPath = false) :
    ∀ r, pathState url buffer s = some r → r.hasTextPath = false := by
  induction s generalizing url buffer with
  | nil =>
    intro r hr
    simp only [pathState, Option.some.injEq] at hr
    rw [← hr, endSegment_hasTextPath, hu]
  | cons c cs ih =>
    have he : ∀ b, (endSegment url buffer b).hasTextPath = false := fun b => by
      rw [endSegment_hasTextPath, hu]
    rw [pathState]
    split_ifs
    · exact ih _ _ (he true)
    · exact hasTextPath_of_pathOf (u := endSegment url buffer false) (he false)
        (queryState_path _ _ _)
    · exact hasTextPath_of_pathOf (u := endSegment url buffer false) (he false)
        (fragmentState_path _ _)
    · exact ih _ _ hu

theorem pathStartState_hasTextPath (url : Url) (s : Str) (hu : url.hasTextPath = false) :
    ∀ r, pathStartState url s = some r → r.hasTextPath = false := by
  unfold pathStartState
  split_ifs
  · split
    · split_ifs <;> exact pathState_hasTextPath _ _ _ hu
    · exact pathState_hasTextPath _ _ _ hu
  · split
    · intro r hr
      simp only [Option.some.injEq] at hr
      rw [← hr, hu]
    · split_ifs
      · exact hasTextPath_of_pathOf (u := url) hu (queryState_path _ _ _)
      · exact hasTextPath_of_pathOf (u := url) hu (fragmentState_path _ _)
      · exact pathState_hasTextPath _ _ _ hu
      · exact pathState_hasTextPath _ _ _ hu

theorem bind_hasTextPath (x : Option Url) (f : Url → Option Url)
    (hx : ∀ u, x = some u → u.hasTextPath = false)
    (hf : ∀ u, u.hasTextPath = false → ∀ r, f u = some r → r.hasTextPath = false) :
    ∀ r, x.bind f = some r → r.hasTextPath = false := by
  intro r hr
  cases x with
  | none => simp at hr
  | some u => exact hf u (hx u rfl) r hr

theorem storePort_hasTextPath (url : Url) (buffer : Str) (hu : url.hasTextPath = false) :
    ∀ u, storePort url buffer = some u → u.hasTextPath = false := by
  intro u h
  unfold storePort at h
  split_ifs at h <;> simp only [Option.some.injEq] at h <;> rw [← h] <;> exact hu

theorem portState_hasTextPath (url : Url) (buffer s : Str) (hu : url.hasTextPath = false) :
    ∀ r, portState url buffer s = some r → r.hasTextPath = false := by
  induction s generalizing buffer with
  | nil =>
    exact bind_hasTextPath _ _ (storePort_hasTextPath url buffer hu)
      (fun u h => pathStartState_hasTextPath u [] h)
  | cons c cs ih =>
    rw [portState]
    split_ifs
    · exact ih _
    · exact bind_hasTextPath _ _ (storePort_hasTextPath url buffer hu)
        (fun u h => pathStartState_hasTextPath u _ h)
    · intro r hr; simp at hr

theorem map_host_hasTextPath (url : Url) (x : Option Host) (hu : url.hasTextPath = false) :
    ∀ u, x.map (fun h => { url with host := some h }) = some u → u.hasTextPath = false := by
  intro u h
  cases x with
  | none => simp at h
  | some v =>
    simp only [Option.map_some', Option.some.injEq] at h
    rw [← h]
    exact hu

theorem storeHost_hasTextPath (toASCII : List Nat → Option Str) (url : Url) (buffer : Str)
    (hu : url.hasTextPath = false) :
    ∀ u, storeHost toASCII url buffer = some u → u.hasTextPath = false := by
  unfold storeHost
  split_ifs
  · intro u h; simp at h
  · exact map_host_hasTextPath url _ hu

theorem hostState_hasTextPath (toASCII : List Nat → Option Str) (url : Url) (buffer : Str)
    (insideBrackets : Bool) (s : Str) (hu : url.hasTextPath = false) :
    ∀ r, hostState toASCII url buffer insideBrackets s = some r → r.hasTextPath = false := by
  induction s generalizing buffer insideBrackets with
  | nil =>
    exact bind_hasTextPath _ _ (storeHost_hasTextPath toASCII url buffer hu)
      (fun u h => pathStartState_hasTextPath u [] h)
  | cons c cs ih =>
    rw [hostState]
    split_ifs <;>
      first
      | exact ih _ _
      | (intro r hr; simp at hr)
      | exact bind_hasTextPath _ _ (storeHost_hasTextPath toASCII url buffer hu)
          (fun u h => pathStartState_hasTextPath u _ h)
      | exact bind_hasTextPath _ _ (map_host_hasTextPath url _ hu)
          (fun u h => portState_hasTextPath u _ _ h)

theorem storeCredentials_hasTextPath (url : Url) (seen : Bool) (buffer : Str) :
    (storeCredentials url seen buffer).1.hasTextPath = url.hasTextPath := by
  induction buffer generalizing url seen with
  | nil => rfl
  | cons c cs ih =>
    rw [storeCredentials]
    split_ifs <;> rw [ih] <;> rfl

theorem authorityState_hasTextPath (toASCII : List Nat → Option Str) (url : Url)
    (buffer : Str) (atSignSeen passwordTokenSeen : Bool) (s : Str)
    (hu : url.hasTextPath = false) :
    ∀ r, authorityState toASCII url buffer atSignSeen passwordTokenSeen s = some r →
      r.hasTextPath = false := by
  induction s generalizing url buffer atSignSeen passwordTokenSeen with
  | nil =>
    rw [authorityState]
    split_ifs
    · intro r hr; simp at hr
    · exact hostState_hasTextPath _ _ _ _ _ hu
  | cons c cs ih =>
    rw [authorityState]
    split_ifs <;>
      first
      | exact ih _ _ _ _ ((storeCredentials_hasTextPath _ _ _).trans hu)
      | exact ih _ _ _ _ hu
      | (intro r hr; simp at hr)
      | exact hostState_hasTextPath _ _ _ _ _ hu

theorem specialAuthorityIgnoreSlashesState_hasTextPath (toASCII : List Nat → Option Str)
    (url : Url) (s : Str) (hu : url.hasTextPath = false) :
    ∀ r, specialAuthorityIgnoreSlashesState toASCII url s = some r → r.hasTextPath = false := by
  induction s with
  | nil => exact authorityState_hasTextPath _ _ _ _ _ _ hu
  | cons c cs ih =>
    rw [specialAuthorityIgnoreSlashesState]
    split_ifs
    · exact ih
    · exact authorityState_hasTextPath _ _ _ _ _ _ hu

/-! ## Theorems: cleaning the input -/

theorem trimEnd_append_cons (a : Str) (t : Char) (r : Str) (ht : isC0ControlOrSpace t = false) :
    trimEnd (a ++ t :: r) = a ++ t :: trimEnd r := by
  unfold trimEnd
  rw [List.reverse_append, List.reverse_cons, List.append_assoc, List.dropWhile_append]
  split_ifs with h
  · have h2 : List.dropWhile isC0ControlOrSpace r.reverse = [] := by
      simpa [List.isEmpty_iff] using h
    rw [h2]
    simp [List.dropWhile_cons, ht]
  · simp

theorem trimEnd_append_singleton (a : Str) (t : Char) (ht : isC0ControlOrSpace t = false) :
    trimEnd (a ++ [t]) = a ++ [t] := by
  rw [trimEnd_append_cons a t [] ht]
  rfl

theorem dropWhile_append_last (a : Str) (l : Char) (rest : Str)
    (hl : isC0ControlOrSpace l = false) :
    ∃ a2, List.dropWhile isC0ControlOrSpace (a ++ l :: rest) = a2 ++ l :: rest ∧
      List.dropWhile isC0ControlOrSpace (a ++ [l]) = a2 ++ [l] := by
  induction a with
  | nil => exact ⟨[], by simp [List.dropWhile_cons, hl], by simp [List.dropWhile_cons, hl]⟩
  | cons x xs ih =>
    by_cases hx : isC0ControlOrSpace x = true
    · obtain ⟨a2, h1, h2⟩ := ih
      exact ⟨a2, by simpa [List.dropWhile_cons, hx] using h1,
        by simpa [List.dropWhile_cons, hx] using h2⟩
    · exact ⟨x :: xs, by simp [List.dropWhile_cons, hx], by simp [List.dropWhile_cons, hx]⟩

theorem not_space_delimiter {t : Char} (ht : t = '?' ∨ t = '#') :
    isC0ControlOrSpace t = false ∧ isTabOrNewline t = false := by
  rcases ht with rfl | rfl <;> exact ⟨rfl, rfl⟩

/-- Cleaning keeps the part before a `?` or `#` that follows a code point which is
no C0 control or space. -/
theorem cut_cleanInput_append (a : Str) (l t : Char) (r : Str)
    (hl : isC0ControlOrSpace l = false) (ht : t = '?' ∨ t = '#') :
    cut (cleanInput (a ++ l :: t :: r)) = cut (cleanInput (a ++ [l])) := by
  obtain ⟨a2, h1, h2⟩ := dropWhile_append_last a l (t :: r) hl
  obtain ⟨hts, htn⟩ := not_space_delimiter ht
  have e1 : a2 ++ l :: t :: r = (a2 ++ [l]) ++ t :: r := by simp
  unfold cleanInput
  rw [h1, h2, e1, trimEnd_append_cons _ t r hts, trimEnd_append_singleton a2 l hl,
    List.filter_append, List.filter_cons]
  simp only [htn, Bool.not_false, if_true]
  exact cut_append_delimiter _ _ _ ht

theorem cleanInput_cons_of_not_space (c : Char) (l : Str) (hc : isC0ControlOrSpace c = false)
    (hn : isTabOrNewline c = false) :
    cleanInput (c :: l) = c :: (trimEnd l).filter (fun c => !isTabOrNewline c) := by
  unfold cleanInput
  rw [List.dropWhile_cons, if_neg (by simp [hc])]
  have := trimEnd_append_cons [] c l hc
  simp only [List.nil_append] at this
  rw [this, List.filter_cons]
  simp [hn]

theorem trimEnd_cons_of_not_space (c : Char) (l : Str) (hc : isC0ControlOrSpace c = false) :
    trimEnd (c :: l) = c :: trimEnd l :=
  trimEnd_append_cons [] c l hc

/-- The base URL of the handler, `http://` followed by the host text, is parsed by
the authority states of an `http` record. -/
theorem basicUrlParser_http (toASCII : List Nat → Option Str) (h : Str) :
    basicUrlParser toASCII ('h' :: 't' :: 't' :: 'p' :: ':' :: '/' :: '/' :: h) none
      = specialAuthorityIgnoreSlashesState toASCII
          { Url.blank with scheme := ['h', 't', 't', 'p'] }
          ((trimEnd h).filter (fun c => !isTabOrNewline c)) := by
  unfold basicUrlParser
  rw [cleanInput_cons_of_not_space 'h' _ rfl rfl,
    trimEnd_cons_of_not_space 't' _ rfl, trimEnd_cons_of_not_space 't' _ rfl,
    trimEnd_cons_of_not_space 'p' _ rfl, trimEnd_cons_of_not_space ':' _ rfl,
    trimEnd_cons_of_not_space '/' _ rfl, trimEnd_cons_of_not_space '/' _ rfl]
  rfl

theorem base_hasTextPath (toASCII : List Nat → Option Str) (h : String) :
    ∀ b, basicUrlParser toASCII ("http://" ++ h).data none = some b → b.hasTextPath = false := by
  have e : ("http://" ++ h).data = 'h' :: 't' :: 't' :: 'p' :: ':' :: '/' :: '/' :: h.data := rfl
  rw [e, basicUrlParser_http]
  exact specialAuthorityIgnoreSlashesState_hasTextPath _ _ _ rfl

/-- Two targets with the same input before the first `?` or `#` give URLs with the
same path against the handler's base (or both make `new URL` throw). -/
theorem newURL_congr_cut (toASCII : List Nat → Option Str) (x y h : String)
    (hxy : cut (cleanInput x.data) = cut (cleanInput y.data)) :
    pathOf (newURL toASCII x ("http://" ++ h)) = pathOf (newURL toASCII y ("http://" ++ h)) := by
  unfold newURL
  cases hb : basicUrlParser toASCII ("http://" ++ h).data none with
  | none => rfl
  | some b =>
    have hbase : ∀ b2, some b = some b2 → b2.hasTextPath = false := by
      intro b2 e
      cases e
      exact base_hasTextPath toASCII h b hb
    simp only [basicUrlParser]
    rw [schemeStartState_cut toASCII (some b) hbase, hxy,
      ← schemeStartState_cut toASCII (some b) hbase]

theorem pathname_congr (r1 r2 : Option Url) (h : pathOf r1 = pathOf r2) :
    r1.map (fun u => String.mk u.pathname) = r2.map (fun u => String.mk u.pathname) := by
  cases r1 <;> cases r2 <;> simp [pathOf] at h
  · rfl
  · simp [Url.pathname, h]

theorem orDefault_some_of_ne (s d : String) (h : s ≠ "") : orDefault (some s) d = s := by
  simp [orDefault, h]

theorem string_ne_empty_of_data {s : String} {a : Str} {c : Char} {r : Str}
    (h : s.data = a ++ c :: r) : s ≠ "" := by
  intro e
  rw [e] at h
  have : ("" : String).data = [] := rfl
  rw [this] at h
  simp at h

/-- A target and the target with more behind a `?` or `#` get the same result,
when the `?` or `#` follows a code point that is no C0 control or space. -/
theorem requestListener_append_delimiter (toASCII : List Nat → Option Str)
    (version method : String) (host : Option String) (g : RandomSource) (p tail : String)
    (a : Str) (l t : Char) (r : Str) (hp : p.data = a ++ [l]) (htail : tail.data = t :: r)
    (hl : isC0ControlOrSpace l = false) (ht : t = '?' ∨ t = '#') :
    requestListener toASCII version { method := method, url := some (p ++ tail), host := host } g
      = requestListener toASCII version { method := method, url := some p, host := host } g := by
  apply requestListener_congr_pathname
  have hpt : (p ++ tail).data = a ++ l :: t :: r := by
    rw [String.data_append, hp, htail]; simp
  have h1 : p ++ tail ≠ "" := string_ne_empty_of_data hpt
  have h2 : p ≠ "" := string_ne_empty_of_data (r := []) hp
  simp only [requestPathname, requestUrl, orDefault_some_of_ne _ _ h1,
    orDefault_some_of_ne _ _ h2]
  apply pathname_congr
  apply newURL_congr_cut
  rw [hpt, hp]
  exact cut_cleanInput_append a l t r hl ht

/-! ## The claim about the query and the fragment -/

/-- C6, as stated, fails: the target `/health ` (or `/health` and a form feed) is
answered 200, because the parser removes the trailing space, and the same target
followed by `?foo=bar#top` is answered 404, because the space is then part of the
path. It also fails for the empty path when the `Host` header carries a path: the
empty target is replaced by `/`, and the target `?q#f` keeps the path of the
base. -/
theorem query_after_trailing_space_changes_response :
    (requestListener noUnicode "dev-local" (getRequest "/health ")
        (constantSource 0)).map (fun r => r.1.statusCode) = some 200 ∧
    (requestListener noUnicode "dev-local"
        (getRequest ("/health " ++ "?" ++ "foo=bar" ++ "#" ++ "top"))
        (constantSource 0)).map (fun r => r.1.statusCode) = some 404 ∧
    (requestListener noUnicode "dev-local" (getRequest "/health\x0c")
        (constantSource 0)).map (fun r => r.1.statusCode) = some 200 ∧
    (requestListener noUnicode "dev-local"
        (getRequest ("/health\x0c" ++ "?" ++ "foo=bar" ++ "#" ++ "top"))
        (constantSource 0)).map (fun r => r.1.statusCode) = some 404 ∧
    (requestListener noUnicode "dev-local"
        { method := "GET", url := some "", host := some "example.com/health" }
        (constantSource 0)).map (fun r => r.1.body)
      = some "\x7b\"message\":\"I Love Sabich\",\"version\":\"dev-local\"\x7d" ∧
    (requestListener noUnicode "dev-local"
        { method := "GET", url := some ("" ++ "?" ++ "q" ++ "#" ++ "f"),
          host := some "example.com/health" }
        (constantSource 0)).map (fun r => r.1.body)
      = some ("\x7b\"status\":\"ok\",\"message\":\"I Love Sabich\"," ++
          "\"version\":\"dev-local\"\x7d") := by
  have hdraw : randomPhraseAt (constantSource 0).next.1 = some "I Love Sabich" := by
    simp [constantSource, RandomSource.next, randomPhraseAt, PHRASES]
  refine ⟨rfl, rfl, rfl, rfl, ?_, ?_⟩
  · rw [requestListener_of_pathname (p := "/") (by decide), hdraw]
    decide
  · rw [requestListener_of_pathname (p := "/health") (by decide), hdraw]
    decide

/-- C6, amended: when the path text `p` ends in a code point that is no C0 control
or space, the target `p?q#f` (and `p?q`, and `p#f`) gets the response of the target
`p`, whatever the query, the fragment, the method and the `Host` header; and
`/?foo=bar` is answered like `/`, with status 200 and the JSON payload. -/
theorem query_and_fragment_ignored (toASCII : List Nat → Option Str) (version method : String)
    (host : Option String) (g : RandomSource) (p q f : String) (c : Char)
    (hlast : p.data.getLast? = some c) (hc : 0x20 < c.toNat) :
    requestListener toASCII version
        { method := method, url := some (p ++ "?" ++ q ++ "#" ++ f), host := host } g
      = requestListener toASCII version { method := method, url := some p, host := host } g ∧
    requestListener toASCII version
        { method := method, url := some (p ++ "?" ++ q), host := host } g
      = requestListener toASCII version { method := method, url := some p, host := host } g ∧
    requestListener toASCII version
        { method := method, url := some (p ++ "#" ++ f), host := host } g
      = requestListener toASCII version { method := method, url := some p, host := host } g ∧
    requestListener toASCII version
        { method := method, url := some "/?foo=bar", host := none } g
      = some (jsonResponse [("message", randomPhraseAt g.next.1), ("version", some version)],
          g.next.2) ∧
    requestListener toASCII version { method := method, url := some "/", host := none } g
      = some (jsonResponse [("message", randomPhraseAt g.next.1), ("version", some version)],
          g.next.2) := by
  obtain ⟨a, ha⟩ := List.getLast?_eq_some_iff.mp hlast
  have hl : isC0ControlOrSpace c = false := by
    simp only [isC0ControlOrSpace, decide_eq_false_iff_not]
    omega
  refine ⟨?_, ?_, ?_, rfl, rfl⟩
  · have e : p ++ "?" ++ q ++ "#" ++ f = p ++ ("?" ++ q ++ "#" ++ f) := by
      simp [String.append_assoc]
    rw [e]
    exact requestListener_append_delimiter toASCII version method host g p _ a c '?'
      (q.data ++ '#' :: f.data) ha (by simp [String.data_append]) hl (Or.inl rfl)
  · have e : p ++ "?" ++ q = p ++ ("?" ++ q) := by simp [String.append_assoc]
    rw [e]
    exact requestListener_append_delimiter toASCII version method host g p _ a c '?'
      q.data ha (by simp [String.data_append]) hl (Or.inl rfl)
  · have e : p ++ "#" ++ f = p ++ ("#" ++ f) := by simp [String.append_assoc]
    rw [e]
    exact requestListener_append_delimiter toASCII version method host g p _ a c '#'
      f.data ha (by simp [String.data_append]) hl (Or.inr rfl)

theorem query_and_fragment_ignored_witness :
    "/health".data.getLast? = some 'h' ∧ 0x20 < 'h'.toNat ∧
    requestListener noUnicode "dev-local"
        { method := "GET", url := some ("/health" ++ "?" ++ "a b" ++ "#" ++ " "),
          host := some "example.com" } (constantSource 0)
      = requestListener noUnicode "dev-local"
        { method := "GET", url := some "/health", host := some "example.com" }
        (constantSource 0) :=
  ⟨by decide, by decide,
    (query_and_fragment_ignored noUnicode "dev-local" "GET" (some "example.com")
      (constantSource 0) "/health" "a b" " " 'h' (by decide) (by decide)).1⟩

end Surgeon
